import Mathlib

/-!
Shallow embedding of the code-quality analyzer (metrics.py, duplicate_detector.py,
coverage_analyzer.py) and of the relevant behaviour of Python's
`difflib.SequenceMatcher` as invoked by the detector (`SequenceMatcher(None, a, b)`,
i.e. with `isjunk = None`, so the junk set `bjunk` is empty and only the
autojunk "popular element" purge of `b2j` applies).

Python floats are modelled by `ℚ`; `round(x, 1)` is modelled by round-half-even
at one decimal.  Strings are modelled by `List Char`; Python `str.lower` is
ASCII-only here (`Char.toLower`), which agrees with Python on all inputs used.
-/

namespace CQA

/-- Round-half-even to an integer, as Python's `round` does on exact values.
Stated with integer arithmetic on `num`/`den` so that it evaluates inside the
kernel; `rhe_floor` below relates it to `⌊x⌋`. -/
def rhe (x : ℚ) : ℤ :=
  let f := x.num / (x.den : ℤ)
  let rn := x.num - f * x.den
  if 2 * rn < (x.den : ℤ) then f
  else if (x.den : ℤ) < 2 * rn then f + 1
  else if f % 2 = 0 then f else f + 1

/-- Python's `round(x, 1)`: round-half-even at one decimal place. -/
def round1 (x : ℚ) : ℚ := mkRat (rhe (mkRat (10 * x.num) x.den)) 10

/-- Python's `round(x, 2)`: round-half-even at two decimal places. -/
def round2 (x : ℚ) : ℚ := mkRat (rhe (mkRat (100 * x.num) x.den)) 100

/-- Kernel-computable multiplication on `ℚ` (the library `*` is irreducible). -/
def qMul (a b : ℚ) : ℚ := mkRat (a.num * b.num) (a.den * b.den)

/-- Kernel-computable addition on `ℚ`. -/
def qAdd (a b : ℚ) : ℚ := mkRat (a.num * b.den + b.num * a.den) (a.den * b.den)

/-- Kernel-computable sum of a list of rationals. -/
def qSum : List ℚ → ℚ
  | [] => 0
  | x :: rest => qAdd x (qSum rest)

/-- Kernel-computable `min x 1`. -/
def qMin1 (x : ℚ) : ℚ := if x ≤ 1 then x else 1

/-- Kernel-computable division of a rational by a natural number. -/
def qDivNat (a : ℚ) (n : ℕ) : ℚ := mkRat a.num (a.den * n)

/-- Kernel-computable `(p : ℚ) / q` for naturals `p`, `q`. -/
def ratNN (p q : ℕ) : ℚ := mkRat p q

theorem qMul_eq (a b : ℚ) : qMul a b = a * b := by
  rw [qMul, Rat.mkRat_eq_div]
  push_cast
  rw [← div_mul_div_comm, Rat.num_div_den, Rat.num_div_den]

theorem qAdd_eq (a b : ℚ) : qAdd a b = a + b := by
  rw [qAdd, Rat.mkRat_eq_div]
  push_cast
  conv_rhs => rw [← Rat.num_div_den a, ← Rat.num_div_den b]
  rw [div_add_div _ _ (by exact_mod_cast a.den_nz) (by exact_mod_cast b.den_nz)]
  ring_nf

theorem qSum_eq (l : List ℚ) : qSum l = l.sum := by
  induction l with
  | nil => rfl
  | cons x rest ih => rw [qSum, qAdd_eq, ih, List.sum_cons]

theorem qMin1_eq (x : ℚ) : qMin1 x = min x 1 := by
  rw [qMin1, min_def]

theorem qDivNat_eq (a : ℚ) (n : ℕ) : qDivNat a n = a / n := by
  rcases Nat.eq_zero_or_pos n with h | h
  · subst h
    simp [qDivNat]
  · rw [qDivNat, Rat.mkRat_eq_div]
    push_cast
    rw [div_mul_eq_div_div, Rat.num_div_den]

theorem ratNN_eq (p q : ℕ) : ratNN p q = (p : ℚ) / q := by
  rw [ratNN, Rat.mkRat_eq_div]
  push_cast
  rfl

theorem rhe_floor (x : ℚ) : x.num / (x.den : ℤ) = ⌊x⌋ := Rat.floor_def.symm

theorem rhe_rn_eq (x : ℚ) : ((x.num - ⌊x⌋ * x.den : ℤ) : ℚ) = (x - ⌊x⌋) * x.den := by
  push_cast
  have hden : ((x.den : ℚ)) ≠ 0 := by
    exact_mod_cast x.den_nz
  have hx : (x.num : ℚ) = x * x.den := by
    field_simp [Rat.num_div_den]
  rw [hx]
  ring

theorem rhe_def (x : ℚ) :
    rhe x =
      (if 2 * (x.num - ⌊x⌋ * x.den) < (x.den : ℤ) then ⌊x⌋
       else if (x.den : ℤ) < 2 * (x.num - ⌊x⌋ * x.den) then ⌊x⌋ + 1
       else if ⌊x⌋ % 2 = 0 then ⌊x⌋ else ⌊x⌋ + 1) := by
  simp only [rhe]
  rw [rhe_floor]

theorem rhe_eq_cases (x : ℚ) :
    rhe x = ⌊x⌋ ∨ rhe x = ⌊x⌋ + 1 := by
  rw [rhe_def]
  split
  · exact Or.inl rfl
  · split
    · exact Or.inr rfl
    · split
      · exact Or.inl rfl
      · exact Or.inr rfl

theorem rhe_half_lt {x : ℚ} (h : rhe x = ⌊x⌋ + 1) : 1/2 ≤ x - ⌊x⌋ := by
  by_contra hcon
  push_neg at hcon
  have hden : (0 : ℚ) < (x.den : ℚ) := by
    exact_mod_cast x.pos
  have hrn' : ((x.num - ⌊x⌋ * x.den : ℤ) : ℚ) = (x - ⌊x⌋) * x.den := rhe_rn_eq x
  have hrn : (2 * (x.num - ⌊x⌋ * x.den) : ℤ) < (x.den : ℤ) := by
    have hq : ((2 * (x.num - ⌊x⌋ * x.den) : ℤ) : ℚ) < ((x.den : ℤ) : ℚ) := by
      push_cast
      push_cast at hrn'
      nlinarith
    exact_mod_cast hq
  rw [rhe_def, if_pos hrn] at h
  omega

theorem rhe_intCast (m : ℤ) : rhe (m : ℚ) = m := by
  unfold rhe
  simp

theorem rhe_nonneg {x : ℚ} (hx : 0 ≤ x) : 0 ≤ rhe x := by
  have h0 : (0 : ℤ) ≤ ⌊x⌋ := Int.le_floor.mpr (by exact_mod_cast hx)
  rcases rhe_eq_cases x with h | h <;> omega

theorem rhe_le {x : ℚ} {m : ℤ} (hx : x ≤ (m : ℚ)) : rhe x ≤ m := by
  have hf : ⌊x⌋ ≤ m := by
    have := Int.floor_le_floor hx
    simpa using this
  rcases rhe_eq_cases x with h | h
  · omega
  · have hhalf := rhe_half_lt h
    have hlt : (⌊x⌋ : ℚ) < x := by linarith
    have : ⌊x⌋ < m := by
      by_contra hcon
      push_neg at hcon
      have : (m : ℚ) ≤ (⌊x⌋ : ℚ) := by exact_mod_cast hcon
      linarith
    omega

theorem round1_eq (x : ℚ) : round1 x = (rhe (10 * x) : ℚ) / 10 := by
  have h10 : mkRat (10 * x.num) x.den = 10 * x := by
    rw [Rat.mkRat_eq_div]
    push_cast
    rw [mul_div_assoc, Rat.num_div_den]
  rw [round1, h10, Rat.mkRat_eq_div]
  norm_num

theorem round1_nonneg {x : ℚ} (hx : 0 ≤ x) : 0 ≤ round1 x := by
  rw [round1_eq]
  have h : (0 : ℤ) ≤ rhe (10 * x) := rhe_nonneg (by linarith)
  have h2 : (0 : ℚ) ≤ (rhe (10 * x) : ℚ) := by exact_mod_cast h
  linarith

theorem round1_le_hundred {x : ℚ} (hx : x ≤ 100) : round1 x ≤ 100 := by
  rw [round1_eq]
  have h : rhe (10 * x) ≤ (1000 : ℤ) := rhe_le (by push_cast; linarith)
  have h2 : (rhe (10 * x) : ℚ) ≤ 1000 := by exact_mod_cast h
  linarith

theorem round1_intCast (m : ℤ) : round1 (m : ℚ) = m := by
  rw [round1_eq]
  have : (10 : ℚ) * m = ((10 * m : ℤ) : ℚ) := by push_cast; ring
  rw [this, rhe_intCast]
  push_cast
  ring

/-! ## Basic string utilities (Python semantics) -/

/-- Characters treated as whitespace by Python's `str.strip()`. -/
def isPySpace (c : Char) : Bool :=
  c = ' ' || c = '\t' || c = '\n' || c = '\r' || c = '\x0b' || c = '\x0c'

/-- Python `s.strip()`. -/
def pyStrip (s : List Char) : List Char :=
  ((s.dropWhile isPySpace).reverse.dropWhile isPySpace).reverse

/-- Python `s.split('\n')`; empty input yields one empty segment. -/
def splitLines : List Char → List (List Char)
  | [] => [[]]
  | c :: rest =>
    if c = '\n' then [] :: splitLines rest
    else
      match splitLines rest with
      | [] => [[c]]
      | l :: ls => (c :: l) :: ls

/-- Python `s.startswith(p)`. -/
def pyStarts (p s : List Char) : Bool := List.isPrefixOf p s

/-! ## difflib.SequenceMatcher(None, a, b), character level

Only the pieces reachable from `.ratio()` with `isjunk = None` are modelled:
`b2j` construction with the autojunk popularity purge, `find_longest_match`
(whose two junk-extension loops are dead since `bjunk` is empty), the recursive
block decomposition underlying `get_matching_blocks`, and the `2*M/T` ratio. -/

/-- Autojunk: an element of `b` is "popular" when `len(b) >= 200` and it occurs
more than `len(b)//100 + 1` times; popular elements are purged from `b2j`. -/
def isPopular (b : List Char) (c : Char) : Bool :=
  200 ≤ b.length && b.length / 100 + 1 < (b.filter (· = c)).length

/-- The (ascending) list `b2j[c]` of positions of `c` in `b`, after the
autojunk purge. -/
def b2jList (b : List Char) (c : Char) : List Nat :=
  if isPopular b c then []
  else (List.range b.length).filter fun j => b.get? j = some c

/-- A candidate best block `(besti, bestj, bestsize)`. -/
structure Best where
  bi : Nat
  bj : Nat
  size : Nat
deriving DecidableEq, Repr

/-- Inner loop of `find_longest_match`: scan the occurrence list of `a[i]`,
building the new `j2len` row and updating the best block. `j2len` is the
previous row. -/
def innerLoop (blo bhi i : Nat) (j2len : Nat → Nat) :
    List Nat → (Nat → Nat) → Best → ((Nat → Nat) × Best)
  | [], acc, best => (acc, best)
  | j :: rest, acc, best =>
    if j < blo then innerLoop blo bhi i j2len rest acc best
    else if bhi ≤ j then (acc, best)
    else
      let k := (if j = 0 then 0 else j2len (j - 1)) + 1
      let acc2 : Nat → Nat := fun x => if x = j then k else acc x
      let best2 := if best.size < k then ⟨i + 1 - k, j + 1 - k, k⟩ else best
      innerLoop blo bhi i j2len rest acc2 best2

/-- Row loop of `find_longest_match`'s dynamic program. -/
def dpRows (a b : List Char) (blo bhi : Nat) :
    List Nat → (Nat → Nat) → Best → Best
  | [], _, best => best
  | i :: rest, j2len, best =>
    let js := match a.get? i with
      | none => []
      | some c => b2jList b c
    let step := innerLoop blo bhi i j2len js (fun _ => 0) best
    dpRows a b blo bhi rest step.1 step.2

/-- Do positions `i` of `a` and `j` of `b` hold equal characters? -/
def charsMatch (a b : List Char) (i j : Nat) : Bool :=
  match a.get? i, b.get? j with
  | some x, some y => x = y
  | _, _ => false

/-- Backward extension loop (the non-junk one; junk loops are dead). -/
def extB (a b : List Char) (alo blo : Nat) : Nat → Best → Best
  | 0, best => best
  | fuel + 1, best =>
    if alo < best.bi ∧ blo < best.bj ∧
        charsMatch a b (best.bi - 1) (best.bj - 1) then
      extB a b alo blo fuel ⟨best.bi - 1, best.bj - 1, best.size + 1⟩
    else best

/-- Forward extension loop (the non-junk one; junk loops are dead). -/
def extF (a b : List Char) (ahi bhi : Nat) : Nat → Best → Best
  | 0, best => best
  | fuel + 1, best =>
    if best.bi + best.size < ahi ∧ best.bj + best.size < bhi ∧
        charsMatch a b (best.bi + best.size) (best.bj + best.size) then
      extF a b ahi bhi fuel ⟨best.bi, best.bj, best.size + 1⟩
    else best

/-- `find_longest_match(alo, ahi, blo, bhi)` for `SequenceMatcher(None, a, b)`. -/
def findLongestMatch (a b : List Char) (alo ahi blo bhi : Nat) : Best :=
  let d := dpRows a b blo bhi (List.range' alo (ahi - alo)) (fun _ => 0) ⟨alo, blo, 0⟩
  let e1 := extB a b alo blo d.bi d
  extF a b ahi bhi ahi e1

/-- Total number of matched characters `M` over the recursive block
decomposition of `get_matching_blocks` (the sort/merge steps preserve the sum).
Fuelled; `ratio` supplies ample fuel. -/
def matchSumF (a b : List Char) : Nat → Nat → Nat → Nat → Nat → Nat
  | 0, _, _, _, _ => 0
  | fuel + 1, alo, ahi, blo, bhi =>
    let m := findLongestMatch a b alo ahi blo bhi
    if m.size = 0 then 0
    else
      m.size
      + (if alo < m.bi ∧ blo < m.bj then matchSumF a b fuel alo m.bi blo m.bj else 0)
      + (if m.bi + m.size < ahi ∧ m.bj + m.size < bhi then
          matchSumF a b fuel (m.bi + m.size) ahi (m.bj + m.size) bhi else 0)

/-- `SequenceMatcher(None, a, b).ratio()`, the classic `2*M/T` value (`1.0` for
two empty sequences, as in `difflib._calculate_ratio`). -/
def seqRatioVal (a b : List Char) : ℚ :=
  let t := a.length + b.length
  if t = 0 then 1
  else ratNN (2 * matchSumF a b (t + 1) 0 a.length 0 b.length) t

theorem seqRatioVal_eq (a b : List Char) (h : a.length + b.length ≠ 0) :
    seqRatioVal a b =
      (2 * (matchSumF a b (a.length + b.length + 1) 0 a.length 0 b.length) : ℚ)
        / (a.length + b.length : ℚ) := by
  simp only [seqRatioVal]
  rw [if_neg h, ratNN_eq]
  push_cast
  ring_nf

/-! ## Python AST model

Closed tagged-variant node type covering the node kinds the analyzer inspects
(`FunctionDef`, `ClassDef`, `Import`/`ImportFrom`, `If`, `While`, `For`,
`ExceptHandler`, `With`, `BoolOp`); every other node kind is `other`.
`ast.walk` enumerates a node and all of its descendants; the analyzer only
uses the resulting collection order-insensitively, so the traversal order
here (depth-first) is immaterial.  `srcSegment` carries the value of
`ast.get_source_segment(code, node)` for a `FunctionDef` node. -/

/-- Data attached to a `FunctionDef` node. -/
structure FuncData where
  name : List Char
  lineno : Nat
  endLineno : Nat
  numArgs : Nat
  hasDocstring : Bool
  srcSegment : Option (List Char)
deriving DecidableEq, Repr

/-- Node kinds distinguished by the analyzer. -/
inductive NodeKind where
  | functionDef (d : FuncData)
  | classDef (name : List Char) (lineno : Nat) (hasDocstring : Bool)
  | importStmt
  | ifStmt
  | whileStmt
  | forStmt
  | exceptHandler
  | withStmt
  | boolOp (numValues : Nat)
  | other
deriving DecidableEq, Repr

/-- A syntax-tree node: a kind plus child nodes. -/
inductive PyNode where
  | node (kind : NodeKind) (children : List PyNode)

mutual

/-- Decidable equality for `PyNode` (the nested inductive blocks deriving). -/
def PyNode.deq : (a b : PyNode) → Decidable (a = b)
  | .node k1 c1, .node k2 c2 =>
    match decEq k1 k2 with
    | isTrue hk =>
      match PyNode.deqList c1 c2 with
      | isTrue hc => isTrue (by rw [hk, hc])
      | isFalse hc => isFalse (fun h => hc (by injection h))
    | isFalse hk => isFalse (fun h => hk (by injection h))

/-- Decidable equality for lists of `PyNode`. -/
def PyNode.deqList : (a b : List PyNode) → Decidable (a = b)
  | [], [] => isTrue rfl
  | [], _ :: _ => isFalse (by simp)
  | _ :: _, [] => isFalse (by simp)
  | a :: as, b :: bs =>
    match PyNode.deq a b, PyNode.deqList as bs with
    | isTrue h1, isTrue h2 => isTrue (by rw [h1, h2])
    | isFalse h1, _ => isFalse (fun h => h1 (by injection h))
    | isTrue _, isFalse h2 => isFalse (fun h => h2 (by injection h))

end

instance : DecidableEq PyNode := PyNode.deq

/-- A parsed module: the list of top-level statements. -/
structure PyTree where
  body : List PyNode
deriving DecidableEq

def PyNode.kind : PyNode → NodeKind
  | .node k _ => k

def PyNode.children : PyNode → List PyNode
  | .node _ c => c

mutual

/-- All nodes of the subtree rooted at a node (the node itself included),
as enumerated by `ast.walk`. -/
def walkNode : PyNode → List PyNode
  | .node k c => .node k c :: walkList c

/-- All nodes of the subtrees rooted at a list of nodes. -/
def walkList : List PyNode → List PyNode
  | [] => []
  | n :: rest => walkNode n ++ walkList rest

end

/-- All nodes of a module, as enumerated by `ast.walk(tree)` (the `Module`
node itself is not a function or class definition and is omitted). -/
def walkTree (t : PyTree) : List PyNode := walkList t.body

/-- The `FuncData` of a node, if it is a `FunctionDef`. -/
def PyNode.funcData? : PyNode → Option FuncData
  | .node (.functionDef d) _ => some d
  | _ => none

theorem walkList_append (l1 l2 : List PyNode) :
    walkList (l1 ++ l2) = walkList l1 ++ walkList l2 := by
  induction l1 with
  | nil => simp [walkList]
  | cons n rest ih => simp [walkList, ih]

/-! ## coverage_analyzer.py : CoverageAnalyzer -/

/-- One entry of `CoverageAnalyzer.functions`. -/
structure DefRecord where
  name : List Char
  line : Nat
  isTest : Bool
deriving DecidableEq, Repr

/-- One entry of `CoverageAnalyzer.classes`. -/
structure ClassRecord where
  name : List Char
  line : Nat
deriving DecidableEq, Repr

/-- `CoverageAnalyzer._extract_definitions`: function records, in walk order. -/
def extractDefs (t : PyTree) : List DefRecord :=
  (walkTree t).filterMap fun n =>
    match n.kind with
    | .functionDef d => some ⟨d.name, d.lineno, pyStarts "test_".data d.name⟩
    | _ => none

/-- `CoverageAnalyzer._extract_definitions`: class records, in walk order. -/
def extractClasses (t : PyTree) : List ClassRecord :=
  (walkTree t).filterMap fun n =>
    match n.kind with
    | .classDef nm ln _ => some ⟨nm, ln⟩
    | _ => none

/-- `CoverageAnalyzer.check_test_presence`; `hasTestFile` is the result of the
`_check_test_file_exists` filesystem probe (identically `false` when the
filepath is the default sentinel `"code.py"`, as in the aggregator pipeline). -/
def checkTestPresence (fs : List DefRecord) (hasTestFile : Bool) : Bool :=
  fs.any (·.isTest) || hasTestFile

/-- `CoverageAnalyzer.estimate_coverage`. -/
def estimateCoverage (fs : List DefRecord) (hasTestFile : Bool) : ℚ :=
  if checkTestPresence fs hasTestFile then
    let testFunctions := (fs.filter (·.isTest)).length
    let nonTestFunctions := fs.length - testFunctions
    if nonTestFunctions = 0 then
      if 0 < testFunctions then 100 else 0
    else
      round1 (qMul (qMin1 (ratNN testFunctions nonTestFunctions)) 100)
  else 0

/-- `CoverageAnalyzer._get_coverage_level`. -/
def getCoverageLevel (coverage : ℚ) : String :=
  if 80 ≤ coverage then "excellent"
  else if 60 ≤ coverage then "good"
  else if 40 ≤ coverage then "moderate"
  else if 0 < coverage then "low"
  else "none"

/-- Result shape of `CoverageAnalyzer.analyze` (the advisory
`recommendations` strings are omitted; `test_ratio` is named `testRatioVal`). -/
structure CoverageInfo where
  hasTests : Bool
  coverageEstimate : ℚ
  testCount : Nat
  functionCount : Nat
  testRatioVal : ℚ
  coverageLevel : String
deriving DecidableEq, Repr

/-- `CoverageAnalyzer.analyze`. -/
def coverageAnalyze (fs : List DefRecord) (hasTestFile : Bool) : CoverageInfo :=
  let hasTests := checkTestPresence fs hasTestFile
  let estimate := estimateCoverage fs hasTestFile
  let testFunctions := (fs.filter (·.isTest)).length
  let nonTestFunctions := (fs.filter (fun f => !f.isTest)).length
  { hasTests := hasTests
    coverageEstimate := estimate
    testCount := testFunctions
    functionCount := nonTestFunctions
    testRatioVal := if nonTestFunctions = 0 then 0
      else round2 (ratNN testFunctions nonTestFunctions)
    coverageLevel := getCoverageLevel estimate }

/-! ## duplicate_detector.py : DuplicateCodeDetector -/

/-- A candidate function retained by `DuplicateCodeDetector.detect`. -/
structure Candidate where
  name : List Char
  code : List Char
  normalized : List Char
  line : Nat
deriving DecidableEq, Repr, Inhabited

/-- `DuplicateCodeDetector._normalize_code`: strip each line, drop blank
lines, join with newline, lowercase. -/
def normalizeCode (code : List Char) : List Char :=
  (List.intercalate ['\n']
    (((splitLines code).map pyStrip).filter (fun l => !l.isEmpty))).map Char.toLower

/-- The non-blank, non-`def` lines of a function body, used for the minimum
line-count filter. -/
def bodyLineCount (code : List Char) : Nat :=
  ((splitLines code).filter fun line =>
    !(pyStrip line).isEmpty && !pyStarts "def".data (pyStrip line)).length

/-- Candidate extraction of `DuplicateCodeDetector.detect`: every
`FunctionDef` whose name does not start with `test_`, whose source segment is
present and non-empty, and whose body line count is at least
`min_function_lines`. -/
def extractCandidates (t : PyTree) (minFunctionLines : Nat) : List Candidate :=
  (walkTree t).filterMap fun n =>
    match n.kind with
    | .functionDef d =>
      if pyStarts "test_".data d.name then none
      else
        match d.srcSegment with
        | none => none
        | some seg =>
          if seg.isEmpty then none
          else if minFunctionLines ≤ bodyLineCount seg then
            some ⟨d.name, seg, normalizeCode seg, d.lineno⟩
          else none
    | _ => none

/-- `DuplicateCodeDetector._calculate_similarity`:
`SequenceMatcher(None, code1, code2).ratio()`. -/
def calculateSimilarity (code1 code2 : List Char) : ℚ :=
  seqRatioVal code1 code2

/-- The 75% similarity threshold, as a kernel-computable rational. -/
def simThreshold : ℚ := mkRat 3 4

theorem simThreshold_eq : simThreshold = 3/4 := by
  rw [simThreshold, Rat.mkRat_eq_div]
  norm_num

/-- One recorded duplicate pair. -/
structure DupRecord where
  function1 : List Char
  function2 : List Char
  similarity : ℚ
  line1 : Nat
  line2 : Nat
deriving DecidableEq, Repr

/-- The index pairs `(i, j)`, `i < j` in extraction order, whose similarity
meets the threshold (the `for i / for j in range(i+1, ...)` double loop). -/
def dupIndexPairs (cands : List Candidate) : List (Nat × Nat) :=
  (List.range cands.length).flatMap fun i =>
    (List.range' (i + 1) (cands.length - (i + 1))).filterMap fun j =>
      if simThreshold ≤ calculateSimilarity
          ((cands.getD i default).normalized) ((cands.getD j default).normalized)
      then some (i, j) else none

/-- The recorded duplicate list of `DuplicateCodeDetector.detect`. -/
def dupRecords (cands : List Candidate) : List DupRecord :=
  (dupIndexPairs cands).map fun p =>
    let fi := cands.getD p.1 default
    let fj := cands.getD p.2 default
    ⟨fi.name, fj.name,
      round1 (qMul (calculateSimilarity fi.normalized fj.normalized) 100),
      fi.line, fj.line⟩

/-- The set of distinct function names appearing in a recorded pair
(`duplicate_function_names`; a Python `set`, modelled by deduplication). -/
def dupNameCount (cands : List Candidate) : Nat :=
  (((dupRecords cands).flatMap fun r => [r.function1, r.function2]).dedup).length

/-- The unrounded `duplication_percent` of `DuplicateCodeDetector.detect`
(`len(functions) if functions else 1` in the denominator). -/
def duplicationPercentRaw (cands : List Candidate) : ℚ :=
  qMul (ratNN (dupNameCount cands)
    (if cands.length = 0 then 1 else cands.length)) 100

/-- `DuplicateCodeDetector._calculate_severity` (exact ordered elif chain). -/
def calculateSeverity (duplicatePairs : Nat) (duplicationPercent : ℚ) : String :=
  if duplicatePairs = 0 then "none"
  else if duplicatePairs ≤ 2 ∧ duplicationPercent < 30 then "low"
  else if duplicatePairs ≤ 5 ∨ duplicationPercent < 50 then "medium"
  else "high"

/-- Result shape of `DuplicateCodeDetector.detect` / `.analyze`. -/
structure DuplicationInfo where
  duplicatePairs : Nat
  duplicates : List DupRecord
  duplicationPercent : ℚ
  severity : String
deriving DecidableEq, Repr

/-- `DuplicateCodeDetector.detect` on a successfully parsed tree. -/
def detect (t : PyTree) (minFunctionLines : Nat) : DuplicationInfo :=
  let cands := extractCandidates t minFunctionLines
  let duplicates := dupRecords cands
  let pct := duplicationPercentRaw cands
  { duplicatePairs := duplicates.length
    duplicates := duplicates
    duplicationPercent := round1 pct
    severity := calculateSeverity duplicates.length pct }

/-- `DuplicateCodeDetector._empty_result`. -/
def emptyDuplication : DuplicationInfo :=
  { duplicatePairs := 0, duplicates := [], duplicationPercent := 0, severity := "none" }

/-- `DuplicateCodeDetector.analyze`: the constructor catches `SyntaxError`
(`self.tree = None`), and `analyze` then returns the empty result. -/
def duplicateAnalyze (parsed : Option PyTree) (minFunctionLines : Nat) : DuplicationInfo :=
  match parsed with
  | none => emptyDuplication
  | some t => detect t minFunctionLines

/-! ## metrics.py : CodeMetrics

`ast.parse` is a deterministic pure function of the source text; it is
represented by an explicit parameter `pyParse : String → Option PyTree`
(`none` models a raised `SyntaxError`).  `CodeMetrics.__init__` catches the
`SyntaxError` (`self.tree = None`); the detector's constructor does the same;
`CoverageAnalyzer.__init__` does not (see `coverageInitE`). -/

/-- Result of `CodeMetrics._function_info`. -/
structure FunctionsInfo where
  count : Nat
  names : List (List Char)
deriving DecidableEq, Repr

/-- Result of `CodeMetrics._class_info`. -/
structure ClassesInfo where
  count : Nat
  names : List (List Char)
deriving DecidableEq, Repr

/-- One flagged complex function of `CodeMetrics._function_complexity`. -/
structure ComplexFunc where
  name : List Char
  complexity : Nat
  line : Nat
deriving DecidableEq, Repr

/-- Result of `CodeMetrics._function_complexity`. -/
structure ComplexityInfo where
  average : ℚ
  maximum : Nat
  complexFunctions : List ComplexFunc
deriving DecidableEq, Repr

/-- Result of `CodeMetrics._check_docstrings`. -/
structure DocstringsInfo where
  totalFunctions : Nat
  functionsDocumented : Nat
  totalClasses : Nat
  classesDocumented : Nat
  coveragePercent : ℚ
deriving DecidableEq, Repr

/-- One style issue of `CodeMetrics._check_code_style` (the message text is
immaterial to the analysis and is not modelled). -/
structure StyleIssue where
  line : Nat
deriving DecidableEq, Repr

/-- Result of `CodeMetrics._check_code_style`. -/
structure CodeStyleInfo where
  issuesCount : Nat
  issues : List StyleIssue
deriving DecidableEq, Repr

/-- Result of `CodeMetrics._calculate_score`. -/
structure ScoreInfo where
  total : ℚ
  letterGrade : String
  documentation : ℚ
  complexity : ℚ
  codeStyle : ℚ
  structureScore : ℚ
  duplication : ℚ
  testCoverage : ℚ
deriving DecidableEq, Repr

/-- The aggregate analysis report of `CodeMetrics.analyze`. -/
structure MetricsReport where
  filename : String
  totalLines : Nat
  codeLines : Nat
  functions : FunctionsInfo
  classes : ClassesInfo
  importsCount : Nat
  complexity : ComplexityInfo
  docstrings : DocstringsInfo
  codeStyle : CodeStyleInfo
  duplication : DuplicationInfo
  coverage : CoverageInfo
  overallScore : ScoreInfo
deriving DecidableEq, Repr

/-- `CodeMetrics._count_code_lines`: non-blank lines not starting with `#`. -/
def countCodeLines (code : String) : Nat :=
  ((splitLines code.data).filter fun line =>
    !(pyStrip line).isEmpty && !pyStarts "#".data (pyStrip line)).length

/-- `CodeMetrics._function_info`. -/
def functionInfo (t : PyTree) : FunctionsInfo :=
  let functions := (walkTree t).filterMap PyNode.funcData?
  ⟨functions.length, functions.map (·.name)⟩

/-- `CodeMetrics._class_info`. -/
def classInfo (t : PyTree) : ClassesInfo :=
  let classes := extractClasses t
  ⟨classes.length, classes.map (·.name)⟩

/-- `CodeMetrics._import_info` (the count). -/
def importInfo (t : PyTree) : Nat :=
  ((walkTree t).filter fun n => n.kind = .importStmt).length

/-- The complexity contribution of one walked node in
`CodeMetrics._calculate_complexity`: `+1` for a conditional, loop, exception
handler or `with` block, `+(n-1)` for a boolean operator with `n` operands. -/
def nodeComplexity (k : NodeKind) : Nat :=
  match k with
  | .ifStmt | .whileStmt | .forStmt | .exceptHandler | .withStmt => 1
  | .boolOp v => v - 1
  | _ => 0

/-- `CodeMetrics._calculate_complexity`: base 1 plus the contribution of each
node in the function's subtree. -/
def calculateComplexity (n : PyNode) : Nat :=
  (walkNode n).foldl (fun acc c => acc + nodeComplexity c.kind) 1

/-- The non-test `FunctionDef` nodes of the tree, in walk order (paired with
their data). -/
def nonTestFunctionNodes (t : PyTree) : List (PyNode × FuncData) :=
  (walkTree t).filterMap fun n =>
    match n.funcData? with
    | some d => if pyStarts "test_".data d.name then none else some (n, d)
    | none => none

/-- `CodeMetrics._function_complexity`. -/
def functionComplexity (t : PyTree) : ComplexityInfo :=
  let functions := nonTestFunctionNodes t
  if functions.isEmpty then ⟨1, 1, []⟩
  else
    let complexities := functions.map fun f => calculateComplexity f.1
    let complexFuncs := functions.filterMap fun f =>
      let c := calculateComplexity f.1
      if 10 < c then some ⟨f.2.name, c, f.2.lineno⟩ else none
    { average := round1 (ratNN complexities.sum complexities.length)
      maximum := complexities.foldr max 0
      complexFunctions := complexFuncs }

/-- `CodeMetrics._check_docstrings`. -/
def checkDocstrings (t : PyTree) : DocstringsInfo :=
  let functions := (walkTree t).filterMap PyNode.funcData?
  let classes := (walkTree t).filterMap fun n =>
    match n.kind with
    | .classDef _ _ hd => some hd
    | _ => none
  let functionsWithDocs := (functions.filter (·.hasDocstring)).length
  let classesWithDocs := (classes.filter id).length
  let totalItems := functions.length + classes.length
  let documentedItems := functionsWithDocs + classesWithDocs
  { totalFunctions := functions.length
    functionsDocumented := functionsWithDocs
    totalClasses := classes.length
    classesDocumented := classesWithDocs
    coveragePercent :=
      if 0 < totalItems then round1 (qMul (ratNN documentedItems totalItems) 100)
      else 0 }

/-- `CodeMetrics._check_code_style`: a function is flagged when its line span
exceeds 50 or it has more than 5 parameters (each check appends one issue). -/
def checkCodeStyle (t : PyTree) : CodeStyleInfo :=
  let issues := (walkTree t).flatMap fun n =>
    match n.funcData? with
    | some d =>
      (if 50 < d.endLineno - d.lineno then [(⟨d.lineno⟩ : StyleIssue)] else [])
        ++ (if 5 < d.numArgs then [(⟨d.lineno⟩ : StyleIssue)] else [])
    | none => []
  ⟨issues.length, issues⟩

/-- `CodeMetrics._calculate_score`. -/
def calculateScore (functionsCount codeLines : Nat)
    (docCoveragePercent avgComplexity : ℚ) (styleIssues : Nat)
    (duplicationPercent coverageEstimate : ℚ) : ScoreInfo :=
  let docScore : ℚ := qMul (qDivNat docCoveragePercent 100) 15
  let complexityScore : ℚ :=
    if avgComplexity ≤ 5 then 20
    else if avgComplexity ≤ 10 then 15
    else if avgComplexity ≤ 15 then 10
    else 5
  let styleScore : ℚ :=
    if styleIssues = 0 then 20
    else if styleIssues ≤ 3 then 15
    else if styleIssues ≤ 10 then 10
    else 5
  let structureInt : ℤ :=
    15 - (if functionsCount = 0 then 5 else 0) - (if 500 < codeLines then 5 else 0)
  let structureScore : ℚ := ((if structureInt < 0 then 0 else structureInt : ℤ) : ℚ)
  let duplicationScore : ℚ :=
    if duplicationPercent = 0 then 15
    else if duplicationPercent < 10 then 12
    else if duplicationPercent < 25 then 8
    else 3
  let coverageScore : ℚ :=
    if 80 ≤ coverageEstimate then 15
    else if 60 ≤ coverageEstimate then 12
    else if 40 ≤ coverageEstimate then 8
    else if 20 ≤ coverageEstimate then 5
    else 0
  let total := round1 (qSum [docScore, complexityScore, styleScore,
    structureScore, duplicationScore, coverageScore])
  { total := total
    letterGrade :=
      if 90 ≤ total then "A"
      else if 80 ≤ total then "B"
      else if 70 ≤ total then "C"
      else if 60 ≤ total then "D"
      else "F"
    documentation := round1 docScore
    complexity := round1 complexityScore
    codeStyle := round1 styleScore
    structureScore := round1 structureScore
    duplication := round1 duplicationScore
    testCoverage := round1 coverageScore }

/-- `CodeMetrics._empty_metrics`: the all-zero report for unparsable code. -/
def emptyMetrics (filename : String) : MetricsReport :=
  { filename := filename
    totalLines := 0
    codeLines := 0
    functions := ⟨0, []⟩
    classes := ⟨0, []⟩
    importsCount := 0
    complexity := ⟨0, 0, []⟩
    docstrings := ⟨0, 0, 0, 0, 0⟩
    codeStyle := ⟨0, []⟩
    duplication := ⟨0, [], 0, "none"⟩
    coverage := ⟨false, 0, 0, 0, 0, "none"⟩
    overallScore := ⟨0, "F", 0, 0, 0, 0, 0, 0⟩ }

/-- The report built by `CodeMetrics.analyze` on a successfully parsed tree.
The detector re-parses the same text (guarded), and the coverage analyzer
re-parses it unguarded; determinism of `pyParse` makes both yield `t` again.
In the pipeline the coverage filepath is the default sentinel, so the
test-file probe is `false`. -/
def buildReport (code : String) (filename : String) (t : PyTree) : MetricsReport :=
  let functions := functionInfo t
  let complexity := functionComplexity t
  let docstrings := checkDocstrings t
  let codeStyle := checkCodeStyle t
  let duplication := detect t 3
  let coverage := coverageAnalyze (extractDefs t) false
  let codeLines := countCodeLines code
  { filename := filename
    totalLines := (splitLines code.data).length
    codeLines := codeLines
    functions := functions
    classes := classInfo t
    importsCount := importInfo t
    complexity := complexity
    docstrings := docstrings
    codeStyle := codeStyle
    duplication := duplication
    coverage := coverage
    overallScore := calculateScore functions.count codeLines
      docstrings.coveragePercent complexity.average codeStyle.issuesCount
      duplication.duplicationPercent coverage.coverageEstimate }

/-- `CodeMetrics.analyze`. -/
def analyzeReport (pyParse : String → Option PyTree) (code : String)
    (filename : String) : MetricsReport :=
  match pyParse code with
  | none => emptyMetrics filename
  | some t => buildReport code filename t

/-- `CoverageAnalyzer.__init__` called directly on source text: its
`ast.parse` call is unguarded, so unparsable text raises (`Except.error`). -/
def coverageInitE (pyParse : String → Option PyTree) (code : String) :
    Except String (List DefRecord) :=
  match pyParse code with
  | none => Except.error "SyntaxError"
  | some t => Except.ok (extractDefs t)

/-- `CodeMetrics.analyze` with exception propagation from
`CoverageAnalyzer.__init__` made explicit: `_check_coverage` constructs a
`CoverageAnalyzer` on `self.code`, which re-parses the same text. -/
def analyzeE (pyParse : String → Option PyTree) (code : String)
    (filename : String) : Except String MetricsReport :=
  match pyParse code with
  | none => Except.ok (emptyMetrics filename)
  | some _ =>
    match coverageInitE pyParse code with
    | Except.error e => Except.error e
    | Except.ok _ => Except.ok (analyzeReport pyParse code filename)

/-! ## Concrete parse oracles and example trees used by the claims -/

/-- A concrete parse oracle: the empty text parses to the empty module
(`ast.parse("")` yields `Module(body=[])`), every other queried text is
unparsable (as `"def invalid syntax here"` is). -/
def pyParseEx : String → Option PyTree :=
  fun s => if s = "" then some ⟨[]⟩ else none

/-- `def alpha(): x = 1; y = 2; z = 3` (4 source lines, 3 body lines). -/
def fnAlpha : PyNode :=
  .node (.functionDef ⟨"alpha".data, 1, 4, 0, false,
    some "def alpha():\n    x = 1\n    y = 2\n    z = 3".data⟩)
    [.node .other [], .node .other [], .node .other []]

/-- `def beta():` with a body byte-identical to `alpha`'s. -/
def fnBeta : PyNode :=
  .node (.functionDef ⟨"beta".data, 6, 9, 0, false,
    some "def beta():\n    x = 1\n    y = 2\n    z = 3".data⟩)
    [.node .other [], .node .other [], .node .other []]

/-- `def gamma():` with a body dissimilar to both. -/
def fnGamma : PyNode :=
  .node (.functionDef ⟨"gamma".data, 11, 14, 0, false,
    some "def gamma():\n    while q:\n        q -= 7\n    return q * q".data⟩)
    [.node .whileStmt [.node .other []], .node .other []]

/-- Module with two identical functions and one dissimilar one. -/
def treeAlphaBetaGamma : PyTree := ⟨[fnAlpha, fnBeta, fnGamma]⟩

/-- Module with exactly one identical pair of functions. -/
def treePair : PyTree := ⟨[fnAlpha, fnBeta]⟩

/-- First function of the similarity-asymmetry pair. -/
def fnAsym1 : PyNode :=
  .node (.functionDef ⟨"f1".data, 1, 5, 0, false,
    some "def f1():\n    y = b\n    x = a\n    y = 2\n    x = 1".data⟩)
    [.node .other [], .node .other [], .node .other [], .node .other []]

/-- Second function of the similarity-asymmetry pair. -/
def fnAsym2 : PyNode :=
  .node (.functionDef ⟨"f2".data, 7, 11, 0, false,
    some "def f2():\n    y = b\n    y = b\n    y = x\n    x = a".data⟩)
    [.node .other [], .node .other [], .node .other [], .node .other []]

/-- Module holding the two functions whose normalized bodies have
order-dependent similarity. -/
def treeAsym : PyTree := ⟨[fnAsym1, fnAsym2]⟩

end CQA

namespace CQA

set_option maxRecDepth 1000000

/-! ## Claim C1 : empty input -/

/-- C1, counterexample.  The empty text parses successfully (to an empty
module), so `CodeMetrics.analyze` takes the normal path: `total_lines = 1`,
`code_lines = 0` and `functions.count = 0` hold as claimed, but the overall
score is not `0.0` and the letter grade is not `'F'` (complexity, style and
duplication score their full defaults on an empty module). -/
theorem spec2proof_c1_counterexample :
    (analyzeReport pyParseEx "" "code.py").totalLines = 1 ∧
    (analyzeReport pyParseEx "" "code.py").codeLines = 0 ∧
    (analyzeReport pyParseEx "" "code.py").functions.count = 0 ∧
    (analyzeReport pyParseEx "" "code.py").overallScore.total ≠ 0 ∧
    (analyzeReport pyParseEx "" "code.py").overallScore.letterGrade ≠ "F" := by
  refine ⟨by decide, by decide, by decide, ?_, by decide⟩
  have h : (analyzeReport pyParseEx "" "code.py").overallScore.total = mkRat 65 1 := by
    decide
  rw [h, Rat.mkRat_eq_div]
  norm_num

/-- C1, amended.  For empty input text (which `ast.parse` accepts as an empty
module), `CodeMetrics.analyze` returns `total_lines = 1`, `code_lines = 0`,
`functions.count = 0`, and an overall score of `65.0` with letter grade `'D'`
(documentation 0 + complexity 20 + style 20 + structure 10 + duplication 15 +
coverage 0). -/
theorem spec2proof_c1 (pyParse : String → Option PyTree)
    (h : pyParse "" = some ⟨[]⟩) :
    (analyzeReport pyParse "" "code.py").totalLines = 1 ∧
    (analyzeReport pyParse "" "code.py").codeLines = 0 ∧
    (analyzeReport pyParse "" "code.py").functions.count = 0 ∧
    (analyzeReport pyParse "" "code.py").overallScore.total = 65 ∧
    (analyzeReport pyParse "" "code.py").overallScore.letterGrade = "D" := by
  have hrw : analyzeReport pyParse "" "code.py" = buildReport "" "code.py" ⟨[]⟩ := by
    rw [analyzeReport, h]
  rw [hrw]
  refine ⟨by decide, by decide, by decide, ?_, by decide⟩
  have h65 : (buildReport "" "code.py" (⟨[]⟩ : PyTree)).overallScore.total = mkRat 65 1 := by
    decide
  rw [h65, Rat.mkRat_eq_div]
  norm_num

/-- C1, witness for the amended theorem at the concrete oracle `pyParseEx`. -/
theorem spec2proof_c1_witness :
    pyParseEx "" = some ⟨[]⟩ ∧
    ((analyzeReport pyParseEx "" "code.py").totalLines = 1 ∧
      (analyzeReport pyParseEx "" "code.py").codeLines = 0 ∧
      (analyzeReport pyParseEx "" "code.py").functions.count = 0 ∧
      (analyzeReport pyParseEx "" "code.py").overallScore.total = 65 ∧
      (analyzeReport pyParseEx "" "code.py").overallScore.letterGrade = "D") :=
  ⟨by decide, spec2proof_c1 pyParseEx (by decide)⟩

/-! ## Claim C2 : unparsable input -/

/-- C2, counterexample.  Unparsable text does return the all-zero report
without an exception, but that report is *not* equal to the report returned
for empty text (empty text parses and scores 65.0 / 'D', with
`total_lines = 1`; the zero report has `total_lines = 0`, total `0.0`, 'F'). -/
theorem spec2proof_c2_counterexample :
    analyzeReport pyParseEx "def invalid syntax here" "code.py"
      ≠ analyzeReport pyParseEx "" "code.py" := by
  decide

/-- C2, amended.  For every syntactically unparsable input text,
`CodeMetrics.analyze` raises no exception and returns the fully populated
all-zero report (`_empty_metrics`: all counts 0, `total_lines = 0`, total
score `0.0`, grade `'F'`); this differs from the report for empty text, which
parses successfully. -/
theorem spec2proof_c2 (pyParse : String → Option PyTree) (code filename : String)
    (h : pyParse code = none) :
    analyzeReport pyParse code filename = emptyMetrics filename ∧
    (emptyMetrics filename).overallScore.total = 0 ∧
    (emptyMetrics filename).overallScore.letterGrade = "F" := by
  refine ⟨?_, rfl, rfl⟩
  rw [analyzeReport, h]

/-- C2, witness at the concrete oracle `pyParseEx` and the spec's own example
of unparsable text. -/
theorem spec2proof_c2_witness :
    pyParseEx "def invalid syntax here" = none ∧
    (analyzeReport pyParseEx "def invalid syntax here" "code.py"
        = emptyMetrics "code.py" ∧
      (emptyMetrics "code.py").overallScore.total = 0 ∧
      (emptyMetrics "code.py").overallScore.letterGrade = "F") :=
  ⟨by decide, spec2proof_c2 pyParseEx "def invalid syntax here" "code.py" (by decide)⟩

/-! ## Walk lemmas -/

theorem self_mem_walkNode (n : PyNode) : n ∈ walkNode n := by
  cases n with
  | node k c => rw [walkNode]; exact List.mem_cons_self _ _

theorem mem_walkList_of_mem {l : List PyNode} {n : PyNode} (h : n ∈ l) :
    n ∈ walkList l := by
  induction l with
  | nil => cases h
  | cons m rest ih =>
    rw [walkList]
    rcases List.mem_cons.mp h with h | h
    · exact List.mem_append_left _ (h ▸ self_mem_walkNode m)
    · exact List.mem_append_right _ (ih h)

mutual

theorem walkNode_trans : ∀ (m n : PyNode), n ∈ walkNode m →
    ∀ x ∈ walkNode n, x ∈ walkNode m
  | .node k c, n, hn, x, hx => by
    rw [walkNode] at hn ⊢
    rcases List.mem_cons.mp hn with h | h
    · subst h
      rw [walkNode] at hx
      exact hx
    · exact List.mem_cons_of_mem _ (walkList_trans c n h x hx)

theorem walkList_trans : ∀ (l : List PyNode) (n : PyNode), n ∈ walkList l →
    ∀ x ∈ walkNode n, x ∈ walkList l
  | [], n, hn, _, _ => absurd hn (by rw [walkList]; exact List.not_mem_nil n)
  | m :: rest, n, hn, x, hx => by
    rw [walkList] at hn ⊢
    rcases List.mem_append.mp hn with h | h
    · exact List.mem_append_left _ (walkNode_trans m n h x hx)
    · exact List.mem_append_right _ (walkList_trans rest n h x hx)

end

theorem children_mem_walkTree {t : PyTree} {n c : PyNode}
    (hn : n ∈ walkTree t) (hc : c ∈ n.children) : c ∈ walkTree t := by
  have hcw : c ∈ walkNode n := by
    cases n with
    | node k ch =>
      rw [walkNode]
      exact List.mem_cons_of_mem _ (mem_walkList_of_mem hc)
  exact walkList_trans t.body n hn c hcw

/-! ## Claim C4 : extraction of functions and classes -/

/-- C4.  The extractor's tree walk is closed under descendants (so it reaches
every definition anywhere in the tree, nested functions and methods
included); every `FunctionDef` node in the walk yields exactly one record
carrying its name and 1-based starting line, and conversely every record
comes from such a node; the same holds for `ClassDef` nodes; and a collected
function is classified as a test function iff its name starts with the
literal prefix `test_`. -/
theorem spec2proof_c4 (t : PyTree) :
    (∀ n, n ∈ walkTree t → ∀ c, c ∈ n.children → c ∈ walkTree t) ∧
    (∀ n, n ∈ walkTree t → ∀ d : FuncData, n.kind = .functionDef d →
      (⟨d.name, d.lineno, pyStarts "test_".data d.name⟩ : DefRecord) ∈ extractDefs t) ∧
    (∀ r, r ∈ extractDefs t → ∃ n, n ∈ walkTree t ∧ ∃ d : FuncData,
      n.kind = .functionDef d ∧ r.name = d.name ∧ r.line = d.lineno) ∧
    (∀ n, n ∈ walkTree t → ∀ nm ln hd, n.kind = .classDef nm ln hd →
      (⟨nm, ln⟩ : ClassRecord) ∈ extractClasses t) ∧
    (∀ r, r ∈ extractClasses t → ∃ n, n ∈ walkTree t ∧ ∃ nm ln hd,
      n.kind = .classDef nm ln hd ∧ r = ⟨nm, ln⟩) ∧
    (∀ r, r ∈ extractDefs t → (r.isTest = true ↔ pyStarts "test_".data r.name = true)) := by
  refine ⟨?_, ?_, ?_, ?_, ?_, ?_⟩
  · intro n hn c hc
    exact children_mem_walkTree hn hc
  · intro n hn d hd
    rw [extractDefs]
    exact List.mem_filterMap.mpr ⟨n, hn, by rw [hd]⟩
  · intro r hr
    rcases List.mem_filterMap.mp hr with ⟨n, hn, hf⟩
    refine ⟨n, hn, ?_⟩
    cases hk : n.kind <;> rw [hk] at hf
    case functionDef d =>
      have hf' : DefRecord.mk d.name d.lineno (pyStarts "test_".data d.name) = r :=
        Option.some.inj hf
      exact ⟨d, rfl, by rw [← hf'], by rw [← hf']⟩
    all_goals exact absurd hf (by simp)
  · intro n hn nm ln hdoc hk
    rw [extractClasses]
    exact List.mem_filterMap.mpr ⟨n, hn, by rw [hk]⟩
  · intro r hr
    rcases List.mem_filterMap.mp hr with ⟨n, hn, hf⟩
    refine ⟨n, hn, ?_⟩
    cases hk : n.kind <;> rw [hk] at hf
    case classDef nm ln hdoc =>
      have hf' : ClassRecord.mk nm ln = r := Option.some.inj hf
      exact ⟨nm, ln, hdoc, rfl, hf'.symm⟩
    all_goals exact absurd hf (by simp)
  · intro r hr
    rcases List.mem_filterMap.mp hr with ⟨n, hn, hf⟩
    cases hk : n.kind <;> rw [hk] at hf
    case functionDef d =>
      have hf' : DefRecord.mk d.name d.lineno (pyStarts "test_".data d.name) = r :=
        Option.some.inj hf
      rw [← hf']
    all_goals exact absurd hf (by simp)

/-- C4, witness: a module with a class holding a method, a nested function,
and a test function; the extractor collects all four definitions. -/
theorem spec2proof_c4_witness :
    (.node (.functionDef ⟨"inner".data, 3, 4, 0, false, none⟩) [] : PyNode)
        ∈ walkTree ⟨[.node (.classDef "c".data 1 false)
            [.node (.functionDef ⟨"m".data, 2, 4, 1, false, none⟩)
              [.node (.functionDef ⟨"inner".data, 3, 4, 0, false, none⟩) []]],
          .node (.functionDef ⟨"test_m".data, 6, 7, 0, false, none⟩) []]⟩ ∧
    (⟨"inner".data, 3, false⟩ : DefRecord)
        ∈ extractDefs ⟨[.node (.classDef "c".data 1 false)
            [.node (.functionDef ⟨"m".data, 2, 4, 1, false, none⟩)
              [.node (.functionDef ⟨"inner".data, 3, 4, 0, false, none⟩) []]],
          .node (.functionDef ⟨"test_m".data, 6, 7, 0, false, none⟩) []]⟩ :=
  ⟨by decide,
    by
      have h := (spec2proof_c4 ⟨[.node (.classDef "c".data 1 false)
            [.node (.functionDef ⟨"m".data, 2, 4, 1, false, none⟩)
              [.node (.functionDef ⟨"inner".data, 3, 4, 0, false, none⟩) []]],
          .node (.functionDef ⟨"test_m".data, 6, 7, 0, false, none⟩) []]⟩).2.1
        (.node (.functionDef ⟨"inner".data, 3, 4, 0, false, none⟩) [])
        (by decide) ⟨"inner".data, 3, 4, 0, false, none⟩ rfl
      exact h⟩

/-! ## Detector lemmas shared by C6 and C7 -/

theorem extractCandidates_not_test {t : PyTree} {m : Nat} {c : Candidate}
    (hc : c ∈ extractCandidates t m) : pyStarts "test_".data c.name = false := by
  rcases List.mem_filterMap.mp hc with ⟨n, _, hf⟩
  cases hk : n.kind <;> rw [hk] at hf
  case functionDef d =>
    have hf1 : (if pyStarts "test_".data d.name = true then none
        else match d.srcSegment with
          | none => none
          | some seg =>
            if seg.isEmpty = true then none
            else if m ≤ bodyLineCount seg then
              some (Candidate.mk d.name seg (normalizeCode seg) d.lineno)
            else none) = some c := hf
    by_cases hts : pyStarts "test_".data d.name = true
    · rw [if_pos hts] at hf1
      exact absurd hf1 (by simp)
    · rw [if_neg hts] at hf1
      cases hseg : d.srcSegment <;> rw [hseg] at hf1
      · exact absurd hf1 (by simp)
      · rename_i seg
        have hf2 : (if seg.isEmpty = true then none
            else if m ≤ bodyLineCount seg then
              some (Candidate.mk d.name seg (normalizeCode seg) d.lineno)
            else none) = some c := hf1
        by_cases he : seg.isEmpty = true
        · rw [if_pos he] at hf2
          exact absurd hf2 (by simp)
        · rw [if_neg he] at hf2
          by_cases hlen : m ≤ bodyLineCount seg
          · rw [if_pos hlen] at hf2
            have := Option.some.inj hf2
            rw [← this]
            simpa using hts
          · rw [if_neg hlen] at hf2
            exact absurd hf2 (by simp)
  all_goals exact absurd hf (by simp)

theorem mem_dupIndexPairs_shape {cands : List Candidate} {p : Nat × Nat}
    (hp : p ∈ dupIndexPairs cands) :
    p.1 < p.2 ∧ p.2 < cands.length := by
  rcases List.mem_flatMap.mp hp with ⟨i, hi, hinner⟩
  rcases List.mem_filterMap.mp hinner with ⟨j, hj, hsome⟩
  have hij : p = (i, j) := by
    by_cases hcond : simThreshold ≤ calculateSimilarity
        ((cands.getD i default).normalized) ((cands.getD j default).normalized)
    · rw [if_pos hcond] at hsome
      exact (Option.some.inj hsome).symm
    · rw [if_neg hcond] at hsome
      exact absurd hsome (by simp)
  rcases List.mem_range'.mp hj with ⟨k, hk, hjk⟩
  have hilen : i < cands.length := List.mem_range.mp hi
  subst hij
  omega

theorem mem_dupIndexPairs_fst {cands : List Candidate} {i : Nat} {p : Nat × Nat}
    (hp : p ∈ (List.range' (i + 1) (cands.length - (i + 1))).filterMap fun j =>
      if simThreshold ≤ calculateSimilarity
          ((cands.getD i default).normalized) ((cands.getD j default).normalized)
      then some (i, j) else none) :
    p.1 = i := by
  rcases List.mem_filterMap.mp hp with ⟨j, _, hsome⟩
  by_cases hcond : simThreshold ≤ calculateSimilarity
      ((cands.getD i default).normalized) ((cands.getD j default).normalized)
  · rw [if_pos hcond] at hsome
    rw [← Option.some.inj hsome]
  · rw [if_neg hcond] at hsome
    exact absurd hsome (by simp)

theorem mem_dupInner {cands : List Candidate} {i j : Nat} {b : Nat × Nat}
    (hb : b ∈ (if simThreshold ≤ calculateSimilarity
        ((cands.getD i default).normalized) ((cands.getD j default).normalized)
      then some (i, j) else none)) : b = (i, j) := by
  split at hb
  · exact (by simpa using hb : (i, j) = b).symm
  · exact absurd hb (by simp)

theorem dupIndexPairs_nodup (cands : List Candidate) :
    (dupIndexPairs cands).Nodup := by
  rw [dupIndexPairs, List.nodup_flatMap]
  constructor
  · intro i _
    apply List.Nodup.filterMap
    · intro a a' b hb hb'
      have e1 := mem_dupInner hb
      have e2 := mem_dupInner hb'
      rw [e1] at e2
      simpa using e2
    · exact List.nodup_range' _ _
  · apply (List.nodup_range _).pairwise_of_forall_ne
    intro a _ b _ hne
    show List.Disjoint _ _
    intro p hp hp'
    have ha : p.1 = a := mem_dupIndexPairs_fst hp
    have hb : p.1 = b := mem_dupIndexPairs_fst hp'
    exact hne (ha ▸ hb)

/-! ## Claim C5 : similarity reflexivity (and failed symmetry)

The development below proves `SequenceMatcher(None, s, s).ratio() = 1` for
every string `s`.  The dynamic program of `find_longest_match` is related to
`runLen s i j`, the length of the junk-free matching run ending at positions
`(i, j)`; for `a = b = s` every run is dominated by the diagonal run of its
own row, which forces every update of the best block to happen on the
diagonal, after which the two extension loops extend the diagonal block to
the whole string. -/

/-- Is `(i, j)` a matching position pair of `s` against itself, with the
`j`-side character surviving the autojunk purge (exactly the pairs the inner
loop of the dynamic program visits)? -/
def eligPair (s : List Char) (i j : Nat) : Bool :=
  match s.get? i, s.get? j with
  | some ci, some cj => ci == cj && !isPopular s cj
  | _, _ => false

/-- Length of the junk-free matching run of `s` against itself ending at
`(i, j)` (0 when the positions do not match). -/
def runLen (s : List Char) : Nat → Nat → Nat
  | i, j =>
    if eligPair s i j then
      match i, j with
      | 0, _ => 1
      | _ + 1, 0 => 1
      | i' + 1, j' + 1 => runLen s i' j' + 1
    else 0

theorem eligPair_symm (s : List Char) (i j : Nat) :
    eligPair s i j = eligPair s j i := by
  unfold eligPair
  rcases h1 : s.get? i with _ | ci <;> rcases h2 : s.get? j with _ | cj
  any_goals rfl
  by_cases hc : ci = cj
  · subst hc
    rfl
  · have h3 : (ci == cj) = false := beq_eq_false_iff_ne.mpr hc
    have h4 : (cj == ci) = false := beq_eq_false_iff_ne.mpr (Ne.symm hc)
    show (ci == cj && !isPopular s cj) = (cj == ci && !isPopular s ci)
    rw [h3, h4]
    simp

theorem eligPair_diag_left {s : List Char} {i j : Nat}
    (h : eligPair s i j = true) : eligPair s i i = true := by
  unfold eligPair at h ⊢
  rcases h1 : s.get? i with _ | ci <;> rw [h1] at h
  · simp at h
  · rcases h2 : s.get? j with _ | cj <;> rw [h2] at h
    · simp at h
    · simp only [Bool.and_eq_true, beq_iff_eq] at h
      rw [h.1]
      simp [h.2]

theorem eligPair_diag_right {s : List Char} {i j : Nat}
    (h : eligPair s i j = true) : eligPair s j j = true := by
  rw [eligPair_symm] at h
  exact eligPair_diag_left h

theorem mem_b2jList {s : List Char} {c : Char} {j : Nat} :
    j ∈ b2jList s c ↔ (isPopular s c = false ∧ s.get? j = some c) := by
  rw [b2jList]
  split
  · rename_i hpop
    simp [hpop]
  · rename_i hpop
    simp only [List.mem_filter, List.mem_range, decide_eq_true_eq]
    constructor
    · intro h
      exact ⟨Bool.not_eq_true _ ▸ (by simpa using hpop), h.2⟩
    · intro h
      refine ⟨?_, h.2⟩
      have := List.get?_eq_some.mp h.2
      exact this.1

theorem eligPair_iff_mem {s : List Char} {i j : Nat} {c : Char}
    (hc : s.get? i = some c) :
    eligPair s i j = true ↔ j ∈ b2jList s c := by
  rw [mem_b2jList]
  unfold eligPair
  rw [hc]
  rcases h2 : s.get? j with _ | cj
  · simp
  · simp only [Bool.and_eq_true, beq_iff_eq, Bool.not_eq_true', Option.some.injEq]
    constructor
    · intro h
      rw [← h.1] at h2 ⊢
      exact ⟨h.1 ▸ h.2, rfl⟩
    · intro h
      rw [h.2] at h2 ⊢
      exact ⟨rfl, h.2 ▸ h.1⟩

theorem eligPair_lt {s : List Char} {i j : Nat} (h : eligPair s i j = true) :
    i < s.length ∧ j < s.length := by
  unfold eligPair at h
  rcases h1 : s.get? i with _ | ci <;> rw [h1] at h
  · simp at h
  · rcases h2 : s.get? j with _ | cj <;> rw [h2] at h
    · simp at h
    · exact ⟨(List.get?_eq_some.mp h1).1, (List.get?_eq_some.mp h2).1⟩

theorem runLen_def (s : List Char) (i j : Nat) :
    runLen s i j = if eligPair s i j
      then (if i = 0 ∨ j = 0 then 1 else runLen s (i - 1) (j - 1) + 1)
      else 0 := by
  cases i <;> cases j <;> (rw [runLen.eq_def]; split) <;> simp

theorem runLen_eq_of_elig {s : List Char} {i j : Nat}
    (h : eligPair s i j = true) :
    runLen s i j = (if i = 0 ∨ j = 0 then 1 else runLen s (i - 1) (j - 1) + 1) := by
  rw [runLen_def, if_pos h]

theorem runLen_zero_of_not_elig {s : List Char} {i j : Nat}
    (h : ¬eligPair s i j = true) : runLen s i j = 0 := by
  rw [runLen_def, if_neg h]

theorem runLen_symm (s : List Char) : ∀ i j, runLen s i j = runLen s j i := by
  intro i
  induction i with
  | zero =>
    intro j
    by_cases h : eligPair s 0 j = true
    · have h' : eligPair s j 0 = true := by rw [← eligPair_symm]; exact h
      rw [runLen_eq_of_elig h, runLen_eq_of_elig h']
      simp
    · have h' : ¬eligPair s j 0 = true := by rw [← eligPair_symm]; exact h
      rw [runLen_zero_of_not_elig h, runLen_zero_of_not_elig h']
  | succ i' ih =>
    intro j
    by_cases h : eligPair s (i' + 1) j = true
    · have h' : eligPair s j (i' + 1) = true := by rw [← eligPair_symm]; exact h
      rw [runLen_eq_of_elig h, runLen_eq_of_elig h']
      cases j with
      | zero => simp
      | succ j' =>
        simp only [Nat.succ_ne_zero, or_self, if_false, Nat.add_sub_cancel]
        rw [ih j']
    · have h' : ¬eligPair s j (i' + 1) = true := by rw [← eligPair_symm]; exact h
      rw [runLen_zero_of_not_elig h, runLen_zero_of_not_elig h']

theorem runLen_le_diag_left (s : List Char) : ∀ i j, runLen s i j ≤ runLen s i i := by
  intro i
  induction i with
  | zero =>
    intro j
    by_cases h : eligPair s 0 j = true
    · rw [runLen_eq_of_elig h, runLen_eq_of_elig (eligPair_diag_left h)]
      simp
    · rw [runLen_zero_of_not_elig h]
      exact Nat.zero_le _
  | succ i' ih =>
    intro j
    by_cases h : eligPair s (i' + 1) j = true
    · rw [runLen_eq_of_elig h, runLen_eq_of_elig (eligPair_diag_left h)]
      simp only [Nat.succ_ne_zero, or_self, if_false, Nat.add_sub_cancel]
      cases j with
      | zero => simp
      | succ j' =>
        simp only [Nat.succ_ne_zero, or_false, if_false, Nat.add_sub_cancel]
        have := ih j'
        omega
    · rw [runLen_zero_of_not_elig h]
      exact Nat.zero_le _

theorem runLen_le_diag_right (s : List Char) (i j : Nat) :
    runLen s i j ≤ runLen s j j := by
  rw [runLen_symm]
  exact runLen_le_diag_left s j i

theorem runLen_le_left (s : List Char) : ∀ i j, runLen s i j ≤ i + 1 := by
  intro i
  induction i with
  | zero =>
    intro j
    rw [runLen_def]
    split
    · split <;> omega
    · omega
  | succ i' ih =>
    intro j
    rw [runLen_def]
    split
    · split
      · omega
      · simp only [Nat.add_sub_cancel]
        have := ih (j - 1)
        omega
    · omega

theorem innerLoop_cons (blo bhi i : Nat) (j2len : Nat → Nat) (j : Nat)
    (rest : List Nat) (acc : Nat → Nat) (best : Best)
    (h1 : ¬j < blo) (h2 : ¬bhi ≤ j) :
    innerLoop blo bhi i j2len (j :: rest) acc best
      = innerLoop blo bhi i j2len rest
          (fun x => if x = j then (if j = 0 then 0 else j2len (j - 1)) + 1 else acc x)
          (if best.size < (if j = 0 then 0 else j2len (j - 1)) + 1
            then Best.mk (i + 1 - ((if j = 0 then 0 else j2len (j - 1)) + 1))
                  (j + 1 - ((if j = 0 then 0 else j2len (j - 1)) + 1))
                  ((if j = 0 then 0 else j2len (j - 1)) + 1)
            else best) := by
  rw [innerLoop, if_neg h1, if_neg h2]

theorem innerLoop_diag (s : List Char) (i : Nat) (hi : i < s.length)
    (j2len : Nat → Nat)
    (HJ : ∀ j, j2len j = (if i = 0 then 0 else runLen s (i - 1) j)) :
    ∀ (js : List Nat) (acc : Nat → Nat) (best : Best),
      (∀ j ∈ js, eligPair s i j = true) →
      List.Pairwise (· < ·) js →
      best.bi = best.bj →
      best.bi + best.size ≤ s.length →
      (∀ i', i' < i → runLen s i' i' ≤ best.size) →
      (i ∈ js ∨ runLen s i i ≤ best.size) →
      (∀ j, (j ∈ js → acc j = 0) ∧ (j ∉ js → acc j = runLen s i j)) →
      ((innerLoop 0 s.length i j2len js acc best).2.bi
          = (innerLoop 0 s.length i j2len js acc best).2.bj ∧
        (innerLoop 0 s.length i j2len js acc best).2.bi
          + (innerLoop 0 s.length i j2len js acc best).2.size ≤ s.length ∧
        (∀ i', i' ≤ i →
          runLen s i' i' ≤ (innerLoop 0 s.length i j2len js acc best).2.size) ∧
        (∀ j, (innerLoop 0 s.length i j2len js acc best).1 j = runLen s i j)) := by
  intro js
  induction js with
  | nil =>
    intro acc best _ _ hbd hbn hinv hdisj hacc
    rw [innerLoop]
    refine ⟨hbd, hbn, ?_, ?_⟩
    · intro i' hi'
      rcases Nat.lt_or_ge i' i with h | h
      · exact hinv i' h
      · have : i' = i := by omega
        subst this
        rcases hdisj with h | h
        · exact absurd h (List.not_mem_nil i')
        · exact h
    · intro j
      exact (hacc j).2 (List.not_mem_nil j)
  | cons j rest ih =>
    intro acc best hjs hpw hbd hbn hinv hdisj hacc
    have helig : eligPair s i j = true := hjs j (List.mem_cons_self j rest)
    have hjn : j < s.length := (eligPair_lt helig).2
    have hrest_gt : ∀ x ∈ rest, j < x := (List.pairwise_cons.mp hpw).1
    rw [innerLoop_cons 0 s.length i j2len j rest acc best
      (Nat.not_lt_zero j) (Nat.not_le.mpr hjn)]
    have hk : (if j = 0 then 0 else j2len (j - 1)) + 1 = runLen s i j := by
      rw [runLen_eq_of_elig helig]
      rcases Nat.eq_zero_or_pos j with hj0 | hjpos
      · subst hj0
        simp
      · rw [if_neg (by omega), HJ (j - 1)]
        rcases Nat.eq_zero_or_pos i with hi0 | hipos
        · subst hi0
          simp
        · rw [if_neg (by omega), if_neg (by omega)]
    set k := (if j = 0 then 0 else j2len (j - 1)) + 1 with hk_def
    set acc2 : Nat → Nat := fun x => if x = j then k else acc x with hacc2_def
    have hacc2 : ∀ x, (x ∈ rest → acc2 x = 0) ∧ (x ∉ rest → acc2 x = runLen s i x) := by
      intro x
      constructor
      · intro hx
        have hxj : x ≠ j := by
          have := hrest_gt x hx
          omega
        rw [hacc2_def]
        simp only [if_neg hxj]
        exact (hacc x).1 (List.mem_cons_of_mem j hx)
      · intro hx
        by_cases hxj : x = j
        · subst hxj
          simp [hacc2_def, ← hk]
        · rw [hacc2_def]
          simp only [if_neg hxj]
          exact (hacc x).2 (by
            intro hmem
            rcases List.mem_cons.mp hmem with h | h
            · exact hxj h
            · exact hx h)
    by_cases hup : best.size < k
    · have hji : j = i := by
        rcases Nat.lt_trichotomy j i with hlt | heq | hgt
        · exfalso
          have h1 : runLen s i j ≤ runLen s j j := runLen_le_diag_right s i j
          have h2 : runLen s j j ≤ best.size := hinv j hlt
          omega
        · exact heq
        · exfalso
          have hnotin : i ∉ j :: rest := by
            intro hmem
            rcases List.mem_cons.mp hmem with h | h
            · omega
            · have := hrest_gt i h
              omega
          have hrll : runLen s i i ≤ best.size := by
            rcases hdisj with h | h
            · exact absurd h hnotin
            · exact h
          have h1 : runLen s i j ≤ runLen s i i := runLen_le_diag_left s i j
          omega
      subst hji
      rw [if_pos hup]
      have hkle : k ≤ j + 1 := by
        rw [hk]
        exact runLen_le_left s j j
      exact ih acc2 ⟨j + 1 - k, j + 1 - k, k⟩
        (fun x hx => hjs x (List.mem_cons_of_mem j hx))
        (List.pairwise_cons.mp hpw).2
        rfl
        (by show j + 1 - k + k ≤ s.length; omega)
        (fun i' hi' => by
          have := hinv i' hi'
          show runLen s i' i' ≤ k
          omega)
        (Or.inr (by
          show runLen s j j ≤ k
          rw [← hk]))
        hacc2
    · rw [if_neg hup]
      have hdisj2 : i ∈ rest ∨ runLen s i i ≤ best.size := by
        rcases hdisj with h | h
        · rcases List.mem_cons.mp h with h1 | h1
          · right
            have hk2 : k = runLen s j j := by rw [hk, h1]
            rw [h1, ← hk2]
            omega
          · left
            exact h1
        · right
          exact h
      exact ih acc2 best (fun x hx => hjs x (List.mem_cons_of_mem j hx))
        (List.pairwise_cons.mp hpw).2 hbd hbn hinv hdisj2 hacc2

theorem b2jList_sorted (s : List Char) (c : Char) :
    List.Pairwise (· < ·) (b2jList s c) := by
  rw [b2jList]
  split
  · exact List.Pairwise.nil
  · exact List.Pairwise.filter _ (List.pairwise_lt_range _)

theorem dpRows_cons_some (a b : List Char) (blo bhi i : Nat) (rest : List Nat)
    (j2len : Nat → Nat) (best : Best) (c : Char) (hc : a.get? i = some c) :
    dpRows a b blo bhi (i :: rest) j2len best
      = dpRows a b blo bhi rest
          (innerLoop blo bhi i j2len (b2jList b c) (fun _ => 0) best).1
          (innerLoop blo bhi i j2len (b2jList b c) (fun _ => 0) best).2 := by
  rw [dpRows, hc]

theorem dpRows_diag (s : List Char) :
    ∀ (k r : Nat) (j2len : Nat → Nat) (best : Best),
      r + k = s.length →
      (∀ j, j2len j = (if r = 0 then 0 else runLen s (r - 1) j)) →
      best.bi = best.bj →
      best.bi + best.size ≤ s.length →
      (∀ i', i' < r → runLen s i' i' ≤ best.size) →
      ((dpRows s s 0 s.length (List.range' r k) j2len best).bi
          = (dpRows s s 0 s.length (List.range' r k) j2len best).bj ∧
        (dpRows s s 0 s.length (List.range' r k) j2len best).bi
          + (dpRows s s 0 s.length (List.range' r k) j2len best).size ≤ s.length) := by
  intro k
  induction k with
  | zero =>
    intro r j2len best hrk HJ hbd hbn hinv
    rw [show List.range' r 0 = [] from rfl, dpRows]
    exact ⟨hbd, hbn⟩
  | succ k' ih =>
    intro r j2len best hrk HJ hbd hbn hinv
    have hr : r < s.length := by omega
    obtain ⟨c, hc⟩ : ∃ c, s.get? r = some c := by
      rcases h : s.get? r with _ | c
      · exact absurd (List.get?_eq_none.mp h) (by omega)
      · exact ⟨c, rfl⟩
    rw [show List.range' r (k' + 1) = r :: List.range' (r + 1) k' from rfl,
      dpRows_cons_some s s 0 s.length r _ j2len best c hc]
    have hjs : ∀ j ∈ b2jList s c, eligPair s r j = true :=
      fun j hj => (eligPair_iff_mem hc).mpr hj
    have hdisj : r ∈ b2jList s c ∨ runLen s r r ≤ best.size := by
      by_cases he : eligPair s r r = true
      · exact Or.inl ((eligPair_iff_mem hc).mp he)
      · refine Or.inr ?_
        rw [runLen_zero_of_not_elig he]
        exact Nat.zero_le _
    have hacc : ∀ j, (j ∈ b2jList s c → (fun _ : Nat => 0) j = 0)
        ∧ (j ∉ b2jList s c → (fun _ : Nat => 0) j = runLen s r j) := by
      intro j
      refine ⟨fun _ => rfl, fun hj => ?_⟩
      have hne : ¬eligPair s r j = true := fun he => hj ((eligPair_iff_mem hc).mp he)
      rw [runLen_zero_of_not_elig hne]
    have hil := innerLoop_diag s r hr j2len HJ (b2jList s c) (fun _ => 0) best
      hjs (b2jList_sorted s c) hbd hbn hinv hdisj hacc
    exact ih (r + 1)
      (innerLoop 0 s.length r j2len (b2jList s c) (fun _ => 0) best).1
      (innerLoop 0 s.length r j2len (b2jList s c) (fun _ => 0) best).2
      (by omega)
      (fun j => by
        simp only [Nat.succ_ne_zero, if_false, Nat.add_sub_cancel]
        exact hil.2.2.2 j)
      hil.1 hil.2.1
      (fun i' hi' => hil.2.2.1 i' (by omega))

theorem charsMatch_self {s : List Char} {i : Nat} (h : i < s.length) :
    charsMatch s s i i = true := by
  unfold charsMatch
  rw [List.get?_eq_get h]
  simp

theorem extB_self (s : List Char) :
    ∀ (fuel d k : Nat), d + k ≤ s.length → d ≤ fuel →
      extB s s 0 0 fuel ⟨d, d, k⟩ = ⟨0, 0, d + k⟩ := by
  intro fuel
  induction fuel with
  | zero =>
    intro d k hdk hd
    have hd0 : d = 0 := by omega
    subst hd0
    rw [extB, Nat.zero_add]
  | succ fuel ih =>
    intro d k hdk hd
    cases d with
    | zero =>
      have hcond : ¬((0 : Nat) < (Best.mk 0 0 k).bi ∧ (0 : Nat) < (Best.mk 0 0 k).bj
          ∧ charsMatch s s ((Best.mk 0 0 k).bi - 1) ((Best.mk 0 0 k).bj - 1) = true) := by
        intro hcon
        exact absurd hcon.1 (by simp)
      rw [extB, if_neg hcond, Nat.zero_add]
    | succ d' =>
      have hcm : charsMatch s s (d' + 1 - 1) (d' + 1 - 1) = true := by
        rw [Nat.add_sub_cancel]
        exact charsMatch_self (by omega)
      rw [extB, if_pos ⟨Nat.succ_pos d', Nat.succ_pos d', hcm⟩]
      have hrec := ih d' (k + 1) (by omega) (by omega)
      show extB s s 0 0 fuel ⟨d' + 1 - 1, d' + 1 - 1, k + 1⟩ = ⟨0, 0, d' + 1 + k⟩
      rw [Nat.add_sub_cancel, hrec]
      congr 1
      omega

theorem extF_self (s : List Char) :
    ∀ (fuel m : Nat), m ≤ s.length → s.length - m ≤ fuel →
      extF s s s.length s.length fuel ⟨0, 0, m⟩ = ⟨0, 0, s.length⟩ := by
  intro fuel
  induction fuel with
  | zero =>
    intro m hm hf
    have hms : m = s.length := by omega
    subst hms
    rw [extF]
  | succ fuel ih =>
    intro m hm hf
    by_cases hlt : m < s.length
    · have hcm : charsMatch s s (0 + m) (0 + m) = true := by
        rw [Nat.zero_add]
        exact charsMatch_self hlt
      rw [extF, if_pos ⟨(by show 0 + m < s.length; omega :
          (Best.mk 0 0 m).bi + (Best.mk 0 0 m).size < s.length),
        (by show 0 + m < s.length; omega :
          (Best.mk 0 0 m).bj + (Best.mk 0 0 m).size < s.length), hcm⟩]
      exact ih (m + 1) (by omega) (by omega)
    · have hms : m = s.length := by omega
      subst hms
      have hcond : ¬((Best.mk 0 0 s.length).bi + (Best.mk 0 0 s.length).size < s.length
          ∧ (Best.mk 0 0 s.length).bj + (Best.mk 0 0 s.length).size < s.length
          ∧ charsMatch s s ((Best.mk 0 0 s.length).bi + (Best.mk 0 0 s.length).size)
              ((Best.mk 0 0 s.length).bj + (Best.mk 0 0 s.length).size) = true) := by
        intro hcon
        have := hcon.1
        simp only [] at this
        omega
      rw [extF, if_neg hcond]

theorem findLongestMatch_eq (a b : List Char) (alo ahi blo bhi : Nat) :
    findLongestMatch a b alo ahi blo bhi
      = extF a b ahi bhi ahi
          (extB a b alo blo
            (dpRows a b blo bhi (List.range' alo (ahi - alo)) (fun _ => 0) ⟨alo, blo, 0⟩).bi
            (dpRows a b blo bhi (List.range' alo (ahi - alo)) (fun _ => 0) ⟨alo, blo, 0⟩)) := rfl

theorem flm_self (s : List Char) :
    findLongestMatch s s 0 s.length 0 s.length = ⟨0, 0, s.length⟩ := by
  rw [findLongestMatch_eq]
  cases hde : dpRows s s 0 s.length (List.range' 0 (s.length - 0)) (fun _ => 0) ⟨0, 0, 0⟩ with
  | mk bi bj sz =>
    have hd := dpRows_diag s (s.length - 0) 0 (fun _ => 0) ⟨0, 0, 0⟩ (by omega)
      (fun j => by simp) rfl (by simp) (fun i' hi' => absurd hi' (Nat.not_lt_zero i'))
    rw [hde] at hd
    have h1 : bi = bj := hd.1
    have h2 : bi + sz ≤ s.length := hd.2
    subst h1
    show extF s s s.length s.length s.length (extB s s 0 0 bi ⟨bi, bi, sz⟩) = ⟨0, 0, s.length⟩
    rw [extB_self s bi bi sz h2 (Nat.le_refl bi)]
    exact extF_self s s.length (bi + sz) h2 (by omega)

theorem matchSumF_self (s : List Char) (fuel : Nat) (hn : s.length ≠ 0) :
    matchSumF s s (fuel + 1) 0 s.length 0 s.length = s.length := by
  rw [matchSumF, flm_self]
  have hsz : ¬(Best.mk 0 0 s.length).size = 0 := hn
  rw [if_neg hsz]
  have hc1 : ¬((0 : Nat) < (Best.mk 0 0 s.length).bi ∧ (0 : Nat) < (Best.mk 0 0 s.length).bj) := by
    intro hcon
    exact absurd hcon.1 (by simp)
  have hc2 : ¬((Best.mk 0 0 s.length).bi + (Best.mk 0 0 s.length).size < s.length
      ∧ (Best.mk 0 0 s.length).bj + (Best.mk 0 0 s.length).size < s.length) := by
    intro hcon
    have := hcon.1
    simp only [] at this
    omega
  rw [if_neg hc1, if_neg hc2]
  show s.length + 0 + 0 = s.length
  omega

theorem seqRatioVal_self (s : List Char) : seqRatioVal s s = 1 := by
  show (if s.length + s.length = 0 then (1 : ℚ)
    else ratNN (2 * matchSumF s s (s.length + s.length + 1) 0 s.length 0 s.length)
      (s.length + s.length)) = 1
  by_cases h : s.length + s.length = 0
  · rw [if_pos h]
  · rw [if_neg h]
    have hn : s.length ≠ 0 := by omega
    rw [matchSumF_self s (s.length + s.length) hn, ratNN_eq]
    have hcast : ((2 * s.length : ℕ) : ℚ) = ((s.length + s.length : ℕ) : ℚ) := by
      push_cast
      ring
    rw [hcast]
    apply div_self
    exact_mod_cast (by omega : (s.length + s.length : ℕ) ≠ 0)

/-- C5, counterexample.  The module `treeAsym` has exactly two candidate
functions, and the detector's similarity function applied to their normalized
bodies is *not* symmetric: `similarity(f1, f2) = 20/33 ≈ 0.606` but
`similarity(f2, f1) = 28/33 ≈ 0.848` (the tie-breaking of the
longest-matching-block search depends on the argument order; here the
asymmetry even straddles the 0.75 threshold). -/
theorem spec2proof_c5_counterexample :
    (extractCandidates treeAsym 3).length = 2 ∧
    calculateSimilarity ((extractCandidates treeAsym 3).getD 0 default).normalized
        ((extractCandidates treeAsym 3).getD 1 default).normalized
      ≠ calculateSimilarity ((extractCandidates treeAsym 3).getD 1 default).normalized
        ((extractCandidates treeAsym 3).getD 0 default).normalized :=
  ⟨by decide, by decide⟩

/-- C5, amended.  The detector's similarity function is reflexive at `1.0`:
`similarity(f, f) = 1.0` for every candidate function (indeed for every
string) compared with itself.  Symmetry, however, does not hold in general
(see the counterexample); `detect` evaluates each unordered candidate pair
only once, with `i < j` in extraction order. -/
theorem spec2proof_c5 (code : List Char) : calculateSimilarity code code = 1 := by
  rw [calculateSimilarity]
  exact seqRatioVal_self code

/-! ## Claim C6 : duplication percent and severity -/

/-- The claim's percent formula, unrounded:
`(distinct names in recorded pairs / max(candidate count, 1)) * 100`. -/
def specDuplicationPercent (cands : List Candidate) : ℚ :=
  (dupNameCount cands : ℚ) / ((max cands.length 1 : ℕ) : ℚ) * 100

/-- The severity exactly as the claim words it (ordered rule): `none` if zero
pairs; else `low` if pairs ≤ 2 and percent < 30; else `medium` if pairs ≤ 5
or percent < 50; else `high`. -/
def specSeverity (pairs : Nat) (pct : ℚ) : String :=
  if pairs = 0 then "none"
  else if pairs ≤ 2 ∧ pct < 30 then "low"
  else if pairs ≤ 5 ∨ pct < 50 then "medium"
  else "high"

theorem duplicationPercentRaw_eq_spec (cands : List Candidate) :
    duplicationPercentRaw cands = specDuplicationPercent cands := by
  rw [duplicationPercentRaw, specDuplicationPercent, qMul_eq, ratNN_eq]
  have h : (if cands.length = 0 then 1 else cands.length) = max cands.length 1 := by
    split <;> omega
  rw [h]

/-- C6, counterexample.  On a module with three candidate functions, two of
them an identical pair, the recorded `duplication_percent` is `66.7`
(rounded to one decimal), not the exact `(2/3)*100 = 200/3` that the claim's
formula gives. -/
theorem spec2proof_c6_counterexample :
    (detect treeAlphaBetaGamma 3).duplicationPercent
      ≠ specDuplicationPercent (extractCandidates treeAlphaBetaGamma 3) := by
  have h1 : (detect treeAlphaBetaGamma 3).duplicationPercent = mkRat 667 10 := by
    decide
  have h2 : dupNameCount (extractCandidates treeAlphaBetaGamma 3) = 2 := by
    decide
  have h3 : (extractCandidates treeAlphaBetaGamma 3).length = 3 := by
    decide
  rw [h1, specDuplicationPercent, h2, h3, Rat.mkRat_eq_div]
  norm_num

/-- C6, amended.  The recorded `duplication_percent` equals the claim's
formula *rounded to one decimal*; the severity is computed from the
*unrounded* percent by the exact ordered rule the claim states; and the
claim's worked example holds: one identical pair at 100% duplication yields
severity `medium` (with reported percent `100.0`). -/
theorem spec2proof_c6 :
    (∀ (t : PyTree) (minLines : Nat),
      (detect t minLines).duplicationPercent
        = round1 (specDuplicationPercent (extractCandidates t minLines)) ∧
      (detect t minLines).severity
        = specSeverity (dupRecords (extractCandidates t minLines)).length
            (specDuplicationPercent (extractCandidates t minLines))) ∧
    (detect treePair 3).duplicatePairs = 1 ∧
    (detect treePair 3).duplicationPercent = 100 ∧
    (detect treePair 3).severity = "medium" := by
  refine ⟨?_, by decide, ?_, by decide⟩
  · intro t minLines
    constructor
    · show round1 (duplicationPercentRaw (extractCandidates t minLines)) = _
      rw [duplicationPercentRaw_eq_spec]
    · show calculateSeverity _ (duplicationPercentRaw (extractCandidates t minLines)) = _
      rw [duplicationPercentRaw_eq_spec]
      rfl
  · have h : (detect treePair 3).duplicationPercent = mkRat 100 1 := by decide
    rw [h, Rat.mkRat_eq_div]
    norm_num

/-! ## Claim C7 : recorded pairs reference non-test functions, each unordered pair at most once -/

/-- C7.  Every recorded duplicate pair references only candidate functions,
whose names never start with `test_`; the enumerated index pairs satisfy
`i < j` in extraction order; the list of index pairs has no duplicates; and
consequently each unordered pair of candidates appears at most once. -/
theorem spec2proof_c7 (t : PyTree) (minLines : Nat) :
    (∀ r ∈ (detect t minLines).duplicates,
      pyStarts "test_".data r.function1 = false ∧
      pyStarts "test_".data r.function2 = false) ∧
    (∀ p ∈ dupIndexPairs (extractCandidates t minLines), p.1 < p.2) ∧
    (dupIndexPairs (extractCandidates t minLines)).Nodup ∧
    ((dupIndexPairs (extractCandidates t minLines)).Pairwise fun p q =>
      ¬(p.1 = q.1 ∧ p.2 = q.2) ∧ ¬(p.1 = q.2 ∧ p.2 = q.1)) := by
  refine ⟨?_, ?_, dupIndexPairs_nodup _, ?_⟩
  · intro r hr
    have hr' : r ∈ dupRecords (extractCandidates t minLines) := hr
    rcases List.mem_map.mp hr' with ⟨p, hp, hrec⟩
    have hshape := mem_dupIndexPairs_shape hp
    have h1lt : p.1 < (extractCandidates t minLines).length := by omega
    have h2lt : p.2 < (extractCandidates t minLines).length := by omega
    have hm1 : (extractCandidates t minLines).getD p.1 default
        ∈ extractCandidates t minLines := by
      rw [List.getD_eq_getElem _ _ h1lt]
      exact List.getElem_mem h1lt
    have hm2 : (extractCandidates t minLines).getD p.2 default
        ∈ extractCandidates t minLines := by
      rw [List.getD_eq_getElem _ _ h2lt]
      exact List.getElem_mem h2lt
    constructor
    · have : r.function1 = ((extractCandidates t minLines).getD p.1 default).name := by
        rw [← hrec]
      rw [this]
      exact extractCandidates_not_test hm1
    · have : r.function2 = ((extractCandidates t minLines).getD p.2 default).name := by
        rw [← hrec]
      rw [this]
      exact extractCandidates_not_test hm2
  · intro p hp
    exact (mem_dupIndexPairs_shape hp).1
  · apply List.Pairwise.imp_of_mem _ (dupIndexPairs_nodup (extractCandidates t minLines))
    intro p q hp hq hne
    have hsp := mem_dupIndexPairs_shape hp
    have hsq := mem_dupIndexPairs_shape hq
    constructor
    · intro hcomp
      exact hne (Prod.ext hcomp.1 hcomp.2)
    · intro hcross
      omega

/-- C7, witness at the three-candidate module: the recorded pair `alpha`,
`beta` (at similarity `88.1`) names no test function, and its index pair
`(0, 1)` is strictly increasing. -/
theorem spec2proof_c7_witness :
    (pyStarts "test_".data
        (DupRecord.mk "alpha".data "beta".data (mkRat 881 10) 1 6).function1 = false ∧
      pyStarts "test_".data
        (DupRecord.mk "alpha".data "beta".data (mkRat 881 10) 1 6).function2 = false) ∧
    ((0, 1) : Nat × Nat).1 < ((0, 1) : Nat × Nat).2 :=
  ⟨(spec2proof_c7 treeAlphaBetaGamma 3).1
      (DupRecord.mk "alpha".data "beta".data (mkRat 881 10) 1 6) (by decide),
    (spec2proof_c7 treeAlphaBetaGamma 3).2.1 (0, 1) (by decide)⟩

/-! ## Claim C8 : coverage estimate and level -/

/-- The coverage estimate exactly as the claim words it: `0.0` when no tests
are detected; when tests exist and the non-test function count is 0, `100.0`
if at least one test function exists and `0.0` otherwise; otherwise
`min(test_count / non_test_count, 1.0) * 100` rounded to 1 decimal. -/
def specCoverageEstimate (fs : List DefRecord) (hasTestFile : Bool) : ℚ :=
  let testCount := (fs.filter (·.isTest)).length
  let nonTestCount := (fs.filter (fun f => !f.isTest)).length
  if fs.any (·.isTest) = false ∧ hasTestFile = false then 0
  else if nonTestCount = 0 then (if 1 ≤ testCount then 100 else 0)
  else round1 (min ((testCount : ℚ) / (nonTestCount : ℚ)) 1 * 100)

/-- The coverage level exactly as the claim words it: `excellent` if the
estimate is ≥ 80, `good` if ≥ 60, `moderate` if ≥ 40, `low` if > 0, and
`none` otherwise. -/
def specCoverageLevel (estimate : ℚ) : String :=
  if 80 ≤ estimate then "excellent"
  else if 60 ≤ estimate then "good"
  else if 40 ≤ estimate then "moderate"
  else if 0 < estimate then "low"
  else "none"

theorem length_filter_not_add (l : List DefRecord) (p : DefRecord → Bool) :
    (l.filter p).length + (l.filter (fun x => !p x)).length = l.length := by
  induction l with
  | nil => rfl
  | cons x rest ih =>
    cases hx : p x <;> simp [List.filter_cons, hx, ← ih] <;> omega

/-- C8.  `CoverageAnalyzer.estimate_coverage` computes exactly the claimed
estimate, the reported `coverage_estimate` equals it, and the reported
`coverage_level` is derived from the estimate by the claimed thresholds.
(`hasTestFile` is the result of the sibling-test-file probe; tests are
"detected" when a test-named function exists or that probe is true.) -/
theorem spec2proof_c8 (fs : List DefRecord) (hasTestFile : Bool) :
    estimateCoverage fs hasTestFile = specCoverageEstimate fs hasTestFile ∧
    (coverageAnalyze fs hasTestFile).coverageEstimate
      = specCoverageEstimate fs hasTestFile ∧
    (coverageAnalyze fs hasTestFile).coverageLevel
      = specCoverageLevel (estimateCoverage fs hasTestFile) := by
  have hpart := length_filter_not_add fs (·.isTest)
  have hsub : fs.length - (fs.filter (·.isTest)).length
      = (fs.filter (fun f => !f.isTest)).length := by omega
  have hmain : estimateCoverage fs hasTestFile = specCoverageEstimate fs hasTestFile := by
    simp only [estimateCoverage, specCoverageEstimate]
    by_cases hp : checkTestPresence fs hasTestFile = true
    · have hcond : ¬(fs.any (·.isTest) = false ∧ hasTestFile = false) := by
        rw [checkTestPresence] at hp
        intro hc
        rw [hc.1, hc.2] at hp
        simp at hp
      rw [if_pos hp, if_neg hcond]
      rw [hsub]
      by_cases hz : (fs.filter (fun f => !f.isTest)).length = 0
      · rw [if_pos hz, if_pos hz]
        by_cases ht : 0 < (fs.filter (·.isTest)).length
        · rw [if_pos ht, if_pos (by omega)]
        · rw [if_neg ht, if_neg (by omega)]
      · rw [if_neg hz, if_neg hz, qMul_eq, qMin1_eq, ratNN_eq]
    · have hp' : checkTestPresence fs hasTestFile = false := by
        cases h : checkTestPresence fs hasTestFile
        · rfl
        · exact absurd h hp
      have hcond : fs.any (·.isTest) = false ∧ hasTestFile = false := by
        rw [checkTestPresence] at hp'
        constructor
        · cases h : fs.any (·.isTest)
          · rfl
          · rw [h] at hp'; simp at hp'
        · cases h : hasTestFile
          · rfl
          · rw [h] at hp'; simp at hp'
      rw [if_neg hp, if_pos hcond]
  refine ⟨hmain, hmain, ?_⟩
  rfl

/-- C8, witness: the spec's own two-function example (`f` and `test_f`), and
an empty module. -/
theorem spec2proof_c8_witness :
    (coverageAnalyze [⟨"f".data, 1, false⟩, ⟨"test_f".data, 3, true⟩] false).coverageEstimate
      = specCoverageEstimate [⟨"f".data, 1, false⟩, ⟨"test_f".data, 3, true⟩] false ∧
    (coverageAnalyze [] false).coverageLevel
      = specCoverageLevel (estimateCoverage [] false) :=
  ⟨(spec2proof_c8 [⟨"f".data, 1, false⟩, ⟨"test_f".data, 3, true⟩] false).2.1,
    (spec2proof_c8 [] false).2.2⟩

/-! ## Claim C3 : score range and letter grade -/

/-- The letter grade exactly as the claim words it: `'A'` when total ≥ 90,
`'B'` when 80 ≤ total < 90, `'C'` when 70 ≤ total < 80, `'D'` when
60 ≤ total < 70, and `'F'` otherwise. -/
def specLetterGrade (total : ℚ) : String :=
  if 90 ≤ total then "A"
  else if 80 ≤ total then "B"
  else if 70 ≤ total then "C"
  else if 60 ≤ total then "D"
  else "F"

theorem ratio_percent_bounds (d tot : ℕ) (hle : d ≤ tot) :
    0 ≤ (if 0 < tot then round1 (qMul (ratNN d tot) 100) else 0) ∧
      (if 0 < tot then round1 (qMul (ratNN d tot) 100) else 0) ≤ 100 := by
  split
  · rename_i hpos
    have htotpos : (0 : ℚ) < tot := by exact_mod_cast hpos
    rw [qMul_eq, ratNN_eq]
    constructor
    · apply round1_nonneg
      apply mul_nonneg (div_nonneg (by positivity) (le_of_lt htotpos)) (by norm_num)
    · apply round1_le_hundred
      have hr : (d : ℚ) / tot ≤ 1 := by
        rw [div_le_one htotpos]
        exact_mod_cast hle
      nlinarith
  · norm_num

theorem checkDocstrings_bounds (t : PyTree) :
    0 ≤ (checkDocstrings t).coveragePercent ∧
      (checkDocstrings t).coveragePercent ≤ 100 := by
  simp only [checkDocstrings]
  apply ratio_percent_bounds
  have h1 := List.length_filter_le (·.hasDocstring)
    ((walkTree t).filterMap PyNode.funcData?)
  have h2 := List.length_filter_le id
    ((walkTree t).filterMap fun n =>
      match n.kind with
      | .classDef _ _ hd => some hd
      | _ => none)
  omega

theorem calculateScore_bounds (fc cl : Nat) (dc ac : ℚ) (si : Nat) (dp ce : ℚ)
    (hdc0 : 0 ≤ dc) (hdc1 : dc ≤ 100) :
    0 ≤ (calculateScore fc cl dc ac si dp ce).total ∧
    (calculateScore fc cl dc ac si dp ce).total ≤ 100 ∧
    (calculateScore fc cl dc ac si dp ce).letterGrade
      = specLetterGrade (calculateScore fc cl dc ac si dp ce).total := by
  have hdoc0 : 0 ≤ qMul (qDivNat dc 100) 15 := by
    rw [qMul_eq, qDivNat_eq]
    apply mul_nonneg (div_nonneg hdc0 (by norm_num)) (by norm_num)
  have hdoc1 : qMul (qDivNat dc 100) 15 ≤ 15 := by
    rw [qMul_eq, qDivNat_eq]
    push_cast
    linarith
  have hcs : 0 ≤ (if ac ≤ 5 then (20 : ℚ) else if ac ≤ 10 then 15
      else if ac ≤ 15 then 10 else 5)
      ∧ (if ac ≤ 5 then (20 : ℚ) else if ac ≤ 10 then 15
      else if ac ≤ 15 then 10 else 5) ≤ 20 := by
    split_ifs <;> norm_num
  have hss : 0 ≤ (if si = 0 then (20 : ℚ) else if si ≤ 3 then 15
      else if si ≤ 10 then 10 else 5)
      ∧ (if si = 0 then (20 : ℚ) else if si ≤ 3 then 15
      else if si ≤ 10 then 10 else 5) ≤ 20 := by
    split_ifs <;> norm_num
  have hst : 0 ≤ ((((if ((15 : ℤ) - (if fc = 0 then 5 else 0)
        - (if 500 < cl then 5 else 0)) < 0 then (0 : ℤ)
        else (15 : ℤ) - (if fc = 0 then 5 else 0)
          - (if 500 < cl then 5 else 0)) : ℤ)) : ℚ)
      ∧ ((((if ((15 : ℤ) - (if fc = 0 then 5 else 0)
        - (if 500 < cl then 5 else 0)) < 0 then (0 : ℤ)
        else (15 : ℤ) - (if fc = 0 then 5 else 0)
          - (if 500 < cl then 5 else 0)) : ℤ)) : ℚ) ≤ 15 := by
    split_ifs <;> norm_num
  have hdu : 0 ≤ (if dp = 0 then (15 : ℚ) else if dp < 10 then 12
      else if dp < 25 then 8 else 3)
      ∧ (if dp = 0 then (15 : ℚ) else if dp < 10 then 12
      else if dp < 25 then 8 else 3) ≤ 15 := by
    split_ifs <;> norm_num
  have hcv : 0 ≤ (if 80 ≤ ce then (15 : ℚ) else if 60 ≤ ce then 12
      else if 40 ≤ ce then 8 else if 20 ≤ ce then 5 else 0)
      ∧ (if 80 ≤ ce then (15 : ℚ) else if 60 ≤ ce then 12
      else if 40 ≤ ce then 8 else if 20 ≤ ce then 5 else 0) ≤ 15 := by
    split_ifs <;> norm_num
  refine ⟨?_, ?_, rfl⟩
  · show 0 ≤ round1 (qSum _)
    apply round1_nonneg
    rw [qSum_eq]
    simp only [List.sum_cons, List.sum_nil]
    linarith [hcs.1, hss.1, hst.1, hdu.1, hcv.1]
  · show round1 (qSum _) ≤ 100
    apply round1_le_hundred
    rw [qSum_eq]
    simp only [List.sum_cons, List.sum_nil]
    linarith [hcs.2, hss.2, hst.2, hdu.2, hcv.2]

/-- C3.  For every syntactically valid input text, the overall score total
lies in `[0, 100]` and the letter grade is derived from the (reported,
rounded) total by the claimed thresholds: `'A'` iff total ≥ 90, `'B'` iff
80 ≤ total < 90, `'C'` iff 70 ≤ total < 80, `'D'` iff 60 ≤ total < 70,
else `'F'`. -/
theorem spec2proof_c3 (pyParse : String → Option PyTree) (code filename : String)
    (t : PyTree) (h : pyParse code = some t) :
    0 ≤ (analyzeReport pyParse code filename).overallScore.total ∧
    (analyzeReport pyParse code filename).overallScore.total ≤ 100 ∧
    (analyzeReport pyParse code filename).overallScore.letterGrade
      = specLetterGrade (analyzeReport pyParse code filename).overallScore.total := by
  have hrw : analyzeReport pyParse code filename = buildReport code filename t := by
    rw [analyzeReport, h]
  rw [hrw]
  have hdb := checkDocstrings_bounds t
  exact calculateScore_bounds (functionInfo t).count (countCodeLines code)
    (checkDocstrings t).coveragePercent (functionComplexity t).average
    (checkCodeStyle t).issuesCount (detect t 3).duplicationPercent
    (coverageAnalyze (extractDefs t) false).coverageEstimate hdb.1 hdb.2

/-- C3, witness at the empty text parsed to the empty module. -/
theorem spec2proof_c3_witness :
    pyParseEx "" = some ⟨[]⟩ ∧
    (0 ≤ (analyzeReport pyParseEx "" "code.py").overallScore.total ∧
      (analyzeReport pyParseEx "" "code.py").overallScore.total ≤ 100 ∧
      (analyzeReport pyParseEx "" "code.py").overallScore.letterGrade
        = specLetterGrade (analyzeReport pyParseEx "" "code.py").overallScore.total) :=
  ⟨by decide, spec2proof_c3 pyParseEx "" "code.py" ⟨[]⟩ (by decide)⟩

/-! ## Claim C9 : cyclomatic complexity -/

/-- Is a node kind a conditional, loop, exception handler or scoped-resource
block (the `+1` cases of the claim)? -/
def isBranchKind (k : NodeKind) : Bool :=
  match k with
  | .ifStmt | .whileStmt | .forStmt | .exceptHandler | .withStmt => true
  | _ => false

/-- Number of branch nodes anywhere in the function's subtree. -/
def branchCount (n : PyNode) : Nat :=
  ((walkNode n).filter fun c => isBranchKind c.kind).length

/-- Total boolean-combinator contribution `(n-1)` per `BoolOp` with `n`
operands, over the function's subtree. -/
def boolOpExtra (n : PyNode) : Nat :=
  ((walkNode n).map fun c =>
    match c.kind with
    | .boolOp v => v - 1
    | _ => 0).sum

theorem foldl_add_init (l : List PyNode) (f : PyNode → Nat) :
    ∀ init : Nat, l.foldl (fun acc c => acc + f c) init = init + (l.map f).sum := by
  induction l with
  | nil => intro init; simp
  | cons x rest ih =>
    intro init
    rw [List.foldl_cons, ih, List.map_cons, List.sum_cons]
    omega

theorem nodeComplexity_split (k : NodeKind) :
    nodeComplexity k = (if isBranchKind k then 1 else 0)
      + (match k with | .boolOp v => v - 1 | _ => 0) := by
  cases k <;> simp [nodeComplexity, isBranchKind]

theorem length_filter_eq_sum (l : List PyNode) (p : PyNode → Bool) :
    (l.filter p).length = (l.map fun c => if p c then 1 else 0).sum := by
  induction l with
  | nil => rfl
  | cons x rest ih =>
    cases hx : p x
    · simp [List.filter_cons, hx, ih]
    · simp [List.filter_cons, hx, ih, Nat.add_comm]

theorem sum_map_add (l : List PyNode) (f g : PyNode → Nat) :
    (l.map fun c => f c + g c).sum = (l.map f).sum + (l.map g).sum := by
  induction l with
  | nil => rfl
  | cons x rest ih => simp [ih]; omega

/-- C9.  Cyclomatic complexity of a function node equals `1` plus `1` per
conditional/loop/handler/`with` anywhere in the subtree plus `(n-1)` per
boolean combinator with `n` operands; a function with 3 independent `if`
statements and no boolean combinators has complexity exactly 4; and when
there are no non-test functions, the reported average is `1.0` and the
maximum is `1`. -/
theorem spec2proof_c9 :
    (∀ n : PyNode, calculateComplexity n = 1 + branchCount n + boolOpExtra n) ∧
    calculateComplexity (.node (.functionDef ⟨"f".data, 1, 8, 0, false, none⟩)
      [.node .ifStmt [.node .other []], .node .ifStmt [.node .other []],
        .node .ifStmt [.node .other []]]) = 4 ∧
    (∀ t : PyTree, nonTestFunctionNodes t = [] →
      (functionComplexity t).average = 1 ∧ (functionComplexity t).maximum = 1) := by
  refine ⟨?_, by decide, ?_⟩
  · intro n
    rw [calculateComplexity, foldl_add_init, branchCount, boolOpExtra,
      length_filter_eq_sum]
    have hsplit : ((walkNode n).map fun c => nodeComplexity c.kind)
        = (walkNode n).map fun c => (if isBranchKind c.kind then 1 else 0)
            + (match c.kind with | .boolOp v => v - 1 | _ => 0) := by
      apply List.map_congr_left
      intro c _
      exact nodeComplexity_split c.kind
    rw [hsplit, sum_map_add]
    omega
  · intro t h
    rw [functionComplexity, h]
    exact ⟨rfl, rfl⟩

/-- C9, witness: a module whose only function is a test function has no
non-test functions, so the default average `1.0` / maximum `1` apply; the
general formula instanced at a concrete two-`if` function. -/
theorem spec2proof_c9_witness :
    nonTestFunctionNodes ⟨[.node (.functionDef ⟨"test_f".data, 1, 3, 0, false, none⟩)
        [.node .ifStmt []]]⟩ = [] ∧
    (functionComplexity ⟨[.node (.functionDef ⟨"test_f".data, 1, 3, 0, false, none⟩)
        [.node .ifStmt []]]⟩).average = 1 ∧
    (functionComplexity ⟨[.node (.functionDef ⟨"test_f".data, 1, 3, 0, false, none⟩)
        [.node .ifStmt []]]⟩).maximum = 1 ∧
    calculateComplexity (.node (.functionDef ⟨"g".data, 1, 5, 0, false, none⟩)
        [.node .ifStmt [.node (.boolOp 3) []]])
      = 1 + branchCount (.node (.functionDef ⟨"g".data, 1, 5, 0, false, none⟩)
        [.node .ifStmt [.node (.boolOp 3) []]])
        + boolOpExtra (.node (.functionDef ⟨"g".data, 1, 5, 0, false, none⟩)
        [.node .ifStmt [.node (.boolOp 3) []]]) :=
  ⟨by decide,
    (spec2proof_c9.2.2 _ (by decide)).1,
    (spec2proof_c9.2.2 _ (by decide)).2,
    spec2proof_c9.1 _⟩

/-! ## Claim C10 : unguarded parse in CoverageAnalyzer.__init__ -/

/-- C10.  Constructing a `CoverageAnalyzer` directly on unparsable text raises
(`Except.error`) from the constructor, whose `ast.parse` call is unguarded;
yet the aggregator pipeline never hits that branch: `CodeMetrics.analyze`
only instantiates `CoverageAnalyzer` on `self.code` after having parsed it
successfully, so `analyze` with exception propagation made explicit always
returns `Except.ok` of the normal report. -/
theorem spec2proof_c10 :
    (∀ (pyParse : String → Option PyTree) (code : String),
      pyParse code = none →
        coverageInitE pyParse code = Except.error "SyntaxError") ∧
    (∀ (pyParse : String → Option PyTree) (code filename : String),
      analyzeE pyParse code filename
        = Except.ok (analyzeReport pyParse code filename)) := by
  constructor
  · intro pyParse code h
    rw [coverageInitE, h]
  · intro pyParse code filename
    cases h : pyParse code with
    | none => simp [analyzeE, analyzeReport, h]
    | some t => simp [analyzeE, coverageInitE, analyzeReport, h]

/-- C10, witness: the constructor errors on the spec's unparsable example, and
the pipeline stays `Except.ok` both on unparsable and on parsable text. -/
theorem spec2proof_c10_witness :
    coverageInitE pyParseEx "def invalid syntax here" = Except.error "SyntaxError" ∧
    analyzeE pyParseEx "def invalid syntax here" "code.py"
      = Except.ok (analyzeReport pyParseEx "def invalid syntax here" "code.py") ∧
    analyzeE pyParseEx "" "code.py"
      = Except.ok (analyzeReport pyParseEx "" "code.py") :=
  ⟨spec2proof_c10.1 pyParseEx "def invalid syntax here" (by decide),
    spec2proof_c10.2 pyParseEx "def invalid syntax here" "code.py",
    spec2proof_c10.2 pyParseEx "" "code.py"⟩

end CQA
